import Mathlib

/-!
Verification of the NPDM builder (`build_npdm.py`).

The Python source is shallowly embedded below.  JSON values (as produced by
`json.load`) become the inductive `Json`; the growable byte buffer
`BinaryWriter` becomes a structure holding a byte list and a cursor; every
fallible step (the `abort` helper, uncaught Python exceptions, `struct.pack`
range errors, ASCII encode errors) is an `Except Err` result.  The embedded
functions `writeSac`, `writeKC`, `writeAcid`, `writeAci`, `writeMeta` and
`build` mirror, line by line, the functions `write_sac`, `write_kc`,
`write_acid`, `write_aci`, `write_meta` and `main` (minus file input and
output) of the source.
-/

namespace Npdm

/-- Kinds of failure of the Python program: `abort` is the clean
`error: msg` + `sys.exit(1)` path of the `abort` helper; the others model
uncaught Python exceptions (`TypeError`, `NameError`/`UnboundLocalError`,
`ValueError` from `int(s, 16)`, `UnicodeEncodeError` from `str.encode`,
`struct.error` from `struct.pack`). -/
inductive Err where
  | abort : String → Err
  | typeError : Err
  | nameError : Err
  | valueError : Err
  | encodeError : Err
  | structError : Err
deriving DecidableEq, Repr

/-- JSON values, as decoded by `json.load`.  Objects keep their key order
(CPython dicts preserve insertion order), which matters because the source
iterates `value.items()`. -/
inductive Json where
  | null : Json
  | bool : Bool → Json
  | int : Int → Json
  | str : String → Json
  | arr : List Json → Json
  | obj : List (String × Json) → Json
deriving Repr

/-- Value of one hexadecimal digit, as accepted by `int(s, 16)`. -/
def hexDigitVal (c : Char) : Option Nat :=
  if ('0' ≤ c ∧ c ≤ '9') then some (c.toNat - 48)
  else if ('a' ≤ c ∧ c ≤ 'f') then some (c.toNat - 87)
  else if ('A' ≤ c ∧ c ≤ 'F') then some (c.toNat - 55)
  else none

/-- Accumulating hexadecimal digit parser (most significant digit first). -/
def hexFold : Nat → List Char → Option Nat
  | acc, [] => some acc
  | acc, c :: rest =>
    match hexDigitVal c with
    | some d => hexFold (acc * 16 + d) rest
    | none => none

/-- A non-empty run of hexadecimal digits. -/
def parseHexDigits : List Char → Option Nat
  | [] => none
  | l => hexFold 0 l

/-- Strip an optional `0x` / `0X` prefix, as `int(s, 16)` does. -/
def stripHexPrefix : List Char → List Char
  | '0' :: 'x' :: rest => rest
  | '0' :: 'X' :: rest => rest
  | l => l

/-- `int(s, 16)`: optional sign, optional `0x` prefix, hexadecimal digits.
(The exotic parts of the CPython grammar — surrounding whitespace and `_`
digit separators — are not modelled; no claim depends on them.) -/
def parseHex (s : String) : Option Int :=
  match s.data with
  | '-' :: rest => (parseHexDigits (stripHexPrefix rest)).map (fun n => -(n : Int))
  | '+' :: rest => (parseHexDigits (stripHexPrefix rest)).map (fun n => (n : Int))
  | l => (parseHexDigits (stripHexPrefix l)).map (fun n => (n : Int))

/-- `value.encode("ascii")`: the raw code points, failing on any non-ASCII
character (`UnicodeEncodeError`). -/
def asciiEncode (s : String) : Except Err (List Nat) :=
  if s.data.all (fun c => c.toNat < 128) then .ok (s.data.map Char.toNat)
  else .error .encodeError

/-- The bytes of `struct.pack` for an unsigned little-endian integer of
`n` bytes (least significant byte first). -/
def leBytes (n : Nat) (v : Nat) : List Nat :=
  (List.range n).map (fun i => v / 2 ^ (8 * i) % 256)

/-- `BinaryWriter`: a growable byte buffer (`stream`) plus a cursor
(`_position`).  The byte order is always little-endian in this program (the
constructor default), so the `ByteOrder` parameter is not modelled. -/
structure BinaryWriter where
  stream : List Nat
  pos : Nat
deriving DecidableEq, Repr

namespace BinaryWriter

/-- `_fill_bytes`: grow the stream with zero bytes up to `target`
(`bytes_to_add = offset - len(self.stream) + self.position`, with
`target = self.position + offset`). -/
def fillTo (w : BinaryWriter) (target : Nat) : BinaryWriter :=
  if w.stream.length < target then
    { w with stream := w.stream ++ List.replicate (target - w.stream.length) 0 }
  else w

/-- `write`: fill up to `position + len(raw)`, then overwrite the bytes at
the cursor and advance it. -/
def write (w : BinaryWriter) (raw : List Nat) : BinaryWriter :=
  let f := w.fillTo (w.pos + raw.length)
  { stream := f.stream.take w.pos ++ raw ++ f.stream.drop (w.pos + raw.length)
    pos := w.pos + raw.length }

/-- `seek(offset)` (absolute): move the cursor and zero-extend the stream to
it (`_fill_bytes(0)`). -/
def seekAbs (w : BinaryWriter) (p : Nat) : BinaryWriter :=
  BinaryWriter.fillTo { w with pos := p } p

/-- `seek_rel(offset)`: relative seek (only used with non-negative offsets
in this program). -/
def seekRel (w : BinaryWriter) (d : Nat) : BinaryWriter :=
  w.seekAbs (w.pos + d)

/-- `align(alignment)`: advance the cursor to the next multiple of the
alignment; `delta = (-pos % alignment + alignment) % alignment`. -/
def align (w : BinaryWriter) (n : Nat) : BinaryWriter :=
  w.seekRel ((n - w.pos % n) % n)

/-- `write_u8`, via `struct.pack("<B", v)` which rejects values ≥ 2^8. -/
def writeU8 (w : BinaryWriter) (v : Nat) : Except Err BinaryWriter :=
  if v < 2 ^ 8 then .ok (w.write (leBytes 1 v)) else .error .structError

/-- `write_u32`, via `struct.pack("<I", v)` which rejects values ≥ 2^32. -/
def writeU32 (w : BinaryWriter) (v : Nat) : Except Err BinaryWriter :=
  if v < 2 ^ 32 then .ok (w.write (leBytes 4 v)) else .error .structError

/-- `write_u64`, via `struct.pack("<Q", v)` which rejects values ≥ 2^64. -/
def writeU64 (w : BinaryWriter) (v : Nat) : Except Err BinaryWriter :=
  if v < 2 ^ 64 then .ok (w.write (leBytes 8 v)) else .error .structError

/-- `write_string(value)` with no `max_len`: encode as ASCII and append. -/
def writeStringRaw (w : BinaryWriter) (s : String) : Except Err BinaryWriter := do
  let bytes ← asciiEncode s
  .ok (w.write bytes)

/-- `write_string(value, max_len = n)` with `n > 0`: truncate to `n`
characters, pad with NUL bytes to exactly `n`, encode as ASCII. -/
def writeStringFixed (w : BinaryWriter) (s : String) (maxLen : Nat) :
    Except Err BinaryWriter :=
  let t := s.data.take maxLen
  let padded := t ++ List.replicate (maxLen - t.length) (Char.ofNat 0)
  if padded.all (fun c => c.toNat < 128) then .ok (w.write (padded.map Char.toNat))
  else .error .encodeError

end BinaryWriter

/-- Dictionary lookup (`key in json` / `json[key]` on a CPython dict: first
binding wins; decoded JSON objects have unique keys anyway). -/
def jsonLookup : List (String × Json) → String → Option Json
  | [], _ => none
  | (k, v) :: rest, key => if k = key then some v else jsonLookup rest key

/-- The key-tuple scan of `json_read_value`: first present key wins. -/
def jsonFindKeys (kvs : List (String × Json)) : List String → Option Json
  | [] => none
  | k :: rest =>
    match jsonLookup kvs k with
    | some v => some v
    | none => jsonFindKeys kvs rest

/-- `json_read_value(json, keys, default)`.  On a non-dict `json` the
membership test `key in json` raises `TypeError` (this happens at the
`map_page` call site, which passes an `int`).  The returned key name (which
the source computes incorrectly as `key[0]` in the default branch) is used
only in error messages and is not modelled. -/
def jsonReadValue (j : Json) (keys : List String) (default : Option Json) :
    Except Err Json :=
  match j with
  | .obj kvs =>
    match jsonFindKeys kvs keys with
    | some v => .ok v
    | none =>
      match default with
      | some d => .ok d
      | none => .error (.abort "could not find key")
  | _ => .error .typeError

/-- `json_read_dict`. -/
def jsonReadDict (j : Json) (keys : List String) (default : Option Json) :
    Except Err (List (String × Json)) := do
  let data ← jsonReadValue j keys default
  match data with
  | .obj kvs => .ok kvs
  | _ => .error (.abort "must be a dict")

/-- `json_read_list`. -/
def jsonReadList (j : Json) (keys : List String) (default : Option Json) :
    Except Err (List Json) := do
  let data ← jsonReadValue j keys default
  match data with
  | .arr l => .ok l
  | _ => .error (.abort "must be a list")

/-- `json_read_bool`. -/
def jsonReadBool (j : Json) (keys : List String) (default : Option Json) :
    Except Err Bool := do
  let data ← jsonReadValue j keys default
  match data with
  | .bool b => .ok b
  | _ => .error (.abort "must be a boolean")

/-- `json_read_str`. -/
def jsonReadStr (j : Json) (keys : List String) (maxLen : Int)
    (default : Option Json) : Except Err String := do
  let data ← jsonReadValue j keys default
  match data with
  | .str s =>
    if maxLen ≤ 0 ∨ (s.length : Int) ≤ maxLen then .ok s
    else .error (.abort "string must be less than max length")
  | _ => .error (.abort "must be a string")

/-- The recurring `isinstance(data, int) ... elif isinstance(data, str):
int(data, 16) ... else: abort(...)` coercion.  The `else` branch calls the
one-argument `abort` with two arguments, so it raises `TypeError` instead of
aborting cleanly. -/
def jsonCoerceInt (data : Json) : Except Err Int :=
  match data with
  | .int n => .ok n
  | .str s =>
    match parseHex s with
    | some n => .ok n
    | none => .error .valueError
  | _ => .error .typeError

/-- `json_read_int(json, key, min_val, max_val, default)`. -/
def jsonReadInt (j : Json) (keys : List String) (minVal maxVal : Int)
    (default : Option Json) : Except Err Int := do
  let data ← jsonReadValue j keys default
  let val ← jsonCoerceInt data
  if minVal ≤ val ∧ val ≤ maxVal then .ok val
  else .error (.abort "value out of range")

/-- `json_read_u64`. -/
def jsonReadU64 (j : Json) (keys : List String) (default : Option Json) :
    Except Err Int :=
  jsonReadInt j keys 0 ((1 <<< 64) - 1) default

/-- `json_read_u32`. -/
def jsonReadU32 (j : Json) (keys : List String) (default : Option Json) :
    Except Err Int :=
  jsonReadInt j keys 0 ((1 <<< 32) - 1) default

/-- `json_read_u16`. -/
def jsonReadU16 (j : Json) (keys : List String) (default : Option Json) :
    Except Err Int :=
  jsonReadInt j keys 0 ((1 <<< 16) - 1) default

/-- `json_read_u8`. -/
def jsonReadU8 (j : Json) (keys : List String) (default : Option Json) :
    Except Err Int :=
  jsonReadInt j keys 0 ((1 <<< 8) - 1) default

/-- The first loop of `write_sac`: hosted services, one length byte
`0x80 | (len - 1)` then the raw ASCII name. -/
def sacHostLoop : BinaryWriter → List Json → Except Err BinaryWriter
  | w, [] => .ok w
  | w, service :: rest => do
    let .str s := service | .error (.abort "services must be strings")
    if 1 ≤ s.length ∧ s.length ≤ 8 then do
      let w ← w.writeU8 (0x80 ||| (s.length - 1))
      let w ← w.writeStringRaw s
      sacHostLoop w rest
    else .error (.abort "services must be between 1 and 8 chars long")

/-- The second loop of `write_sac`: accessible services, one length byte
`len - 1` (high bit clear) then the raw ASCII name. -/
def sacAccessLoop : BinaryWriter → List Json → Except Err BinaryWriter
  | w, [] => .ok w
  | w, service :: rest => do
    let .str s := service | .error (.abort "services must be strings")
    if 1 ≤ s.length ∧ s.length ≤ 8 then do
      let w ← w.writeU8 (s.length - 1)
      let w ← w.writeStringRaw s
      sacAccessLoop w rest
    else .error (.abort "services must be between 1 and 8 chars long")

/-- `write_sac`. -/
def writeSac (contents : Json) : Except Err BinaryWriter := do
  let serviceHost ← jsonReadList contents ["service_host"] none
  let serviceAccess ← jsonReadList contents ["service_access"] none
  let w ← sacHostLoop ⟨[], 0⟩ serviceHost
  sacAccessLoop w serviceAccess

/-- State carried through the `write_kc` entry loop: the output writer plus
the Python locals `data` and `val`, which are assigned only inside the
`syscalls` branch but read (stale) by the `irq_pair` branch; `none` means
not-yet-assigned (reading it raises `UnboundLocalError`). -/
structure KCState where
  writer : BinaryWriter
  dataVar : Option Json
  valVar : Option Int
deriving Repr

/-- The `for name, data in value.items()` loop of the `syscalls` branch:
accumulates the eight 24-bit group bitmaps and leaves the loop variables
`data` / `val` holding the values of the last iteration. -/
def syscallsLoop :
    List Nat × Option Json × Option Int → List (String × Json) →
    Except Err (List Nat × Option Json × Option Int)
  | acc, [] => .ok acc
  | (groups, _, _), (_, data) :: rest => do
    let val ← jsonCoerceInt data
    if 0 ≤ val ∧ val ≤ 0xbf then
      syscallsLoop
        (groups.set (val.toNat / 24)
          ((groups.getD (val.toNat / 24) 0) ||| (1 <<< (val.toNat % 24))),
         some data, some val) rest
    else .error (.abort "syscall values must be between 0 and 0xbf")

/-- The `for idx, group in enumerate(groups)` loop of the `syscalls` branch:
emit one tagged word per non-zero group bitmap. -/
def emitGroupsLoop : BinaryWriter → Nat → List Nat → Except Err BinaryWriter
  | w, _, [] => .ok w
  | w, idx, group :: rest =>
    if group ≠ 0 then do
      let w ← w.writeU32 ((((1 <<< 4) - 1) ||| (group <<< 5)) ||| (idx <<< 29))
      emitGroupsLoop w (idx + 1) rest
    else emitGroupsLoop w (idx + 1) rest

/-- The `for i, region in enumerate(value)` loop of the `map_region`
branch. -/
def mapRegionLoop : Nat → Nat → List Json → Except Err Nat
  | cap, _, [] => .ok cap
  | cap, i, region :: rest => do
    let .obj rkvs := region | .error (.abort "map_region entries must be dicts")
    let rt ← jsonReadInt (.obj rkvs) ["region_type"] 0 3 none
    let ro ← jsonReadBool (.obj rkvs) ["is_ro"] none
    mapRegionLoop
      ((cap ||| (rt.toNat <<< (11 + 7 * i))) |||
        (if ro then 1 <<< (17 + 7 * i) else 0)) (i + 1) rest

/-- The `for i, irq in enumerate(value)` loop of the `irq_pair` branch.
Source bug reproduced faithfully: for a non-`None` slot the branch reads the
stale locals `data` and `val` (last set by a previous `syscalls` entry)
instead of the current `irq`; if they were never assigned, Python raises
`UnboundLocalError` (modelled as `Err.nameError`).  The range check is
performed on the stale `val`, while the encoded value is the stale `data`. -/
def irqLoop (dataVar : Option Json) (valVar : Option Int) :
    Nat → Nat → List Json → Except Err Nat
  | cap, _, [] => .ok cap
  | cap, i, irq :: rest => do
    let irqValue : Nat ←
      match irq with
      | .null => pure 0x3ff
      | _ => do
        let dv ← match dataVar with
          | some d => pure d
          | none => Except.error Err.nameError
        let iv ← jsonCoerceInt dv
        let v ← match valVar with
          | some v => pure v
          | none => Except.error Err.nameError
        if 0 ≤ v ∧ v ≤ (1 <<< 10) - 1 then pure iv.toNat
        else Except.error (Err.abort "irq_pair values must be between 0x0 and 0x3ff")
    irqLoop dataVar valVar (cap ||| (irqValue <<< (11 + i * 10))) (i + 1) rest

/-- The discriminated-variant dispatch of one `write_kc` loop iteration
(everything after the dict and index checks). -/
def kcBody (st : KCState) (cap : Json) : Except Err KCState := do
    let type_ ← jsonReadStr cap ["type"] (-1) none
    if type_ = "kernel_flags" then do
      let value ← jsonReadDict cap ["value"] none
      let htp ← jsonReadInt (.obj value) ["highest_thread_priority"] 0 63 none
      let ltp ← jsonReadInt (.obj value) ["lowest_thread_priority"] 0 63 none
      let lcpu ← jsonReadU8 (.obj value) ["lowest_cpu_id"] none
      let hcpu ← jsonReadU8 (.obj value) ["highest_cpu_id"] none
      let word := ((((((1 <<< 3) - 1) ||| (htp.toNat <<< 4)) |||
        (ltp.toNat <<< 10)) ||| (lcpu.toNat <<< 16)) ||| (hcpu.toNat <<< 24))
      let writer ← st.writer.writeU32 word
      .ok { st with writer := writer }
    else if type_ = "syscalls" then do
      let value ← jsonReadDict cap ["value"] none
      let res ← syscallsLoop (List.replicate 8 0, st.dataVar, st.valVar) value
      let writer ← emitGroupsLoop st.writer 0 res.1
      .ok { writer := writer, dataVar := res.2.1, valVar := res.2.2 }
    else if type_ = "map" then do
      let value ← jsonReadDict cap ["value"] none
      let addr ← jsonReadInt (.obj value) ["address"] 0 ((1 <<< 24) - 1) none
      let isRo ← jsonReadBool (.obj value) ["is_ro"] none
      let word1 := ((((1 <<< 6) - 1) ||| (addr.toNat <<< 7)) |||
        (if isRo then 1 <<< 31 else 0))
      let writer ← st.writer.writeU32 word1
      let size ← jsonReadInt (.obj value) ["size"] 0 ((1 <<< 20) - 1) none
      let isIo ← jsonReadBool (.obj value) ["is_io"] none
      let word2 := ((((1 <<< 6) - 1) ||| (size.toNat <<< 7)) |||
        (if isIo then 1 <<< 31 else 0))
      let writer ← writer.writeU32 word2
      .ok { st with writer := writer }
    else if type_ = "map_page" then do
      -- Source bug reproduced faithfully: `cap = (1 << 7) - 1` rebinds the
      -- loop variable to the integer tag, and the very next line passes that
      -- integer (not the entry) to `json_read_int`, raising `TypeError`.
      let capTag : Nat := (1 <<< 7) - 1
      let v ← jsonReadInt (.int (capTag : Int)) ["value"] 0 ((1 <<< 24) - 1) none
      let writer ← st.writer.writeU32 (capTag ||| (v.toNat <<< 8))
      .ok { st with writer := writer }
    else if type_ = "map_region" then do
      let value ← jsonReadList cap ["value"] none
      if value.length ≤ 3 then do
        let word ← mapRegionLoop ((1 <<< 10) - 1) 0 value
        let writer ← st.writer.writeU32 word
        .ok { st with writer := writer }
      else .error (.abort "map_region can have a maximum of 3 regions")
    else if type_ = "irq_pair" then do
      let value ← jsonReadList cap ["value"] none
      if value.length = 2 then do
        let word ← irqLoop st.dataVar st.valVar ((1 <<< 11) - 1) 0 value
        let writer ← st.writer.writeU32 word
        .ok { st with writer := writer }
      else .error (.abort "irq_pair must contain 2 elements")
    else if type_ = "application_type" then do
      let v ← jsonReadInt cap ["value"] 0 2 (some (.int 0))
      let writer ← st.writer.writeU32 (((1 <<< 13) - 1) ||| (v.toNat <<< 14))
      .ok { st with writer := writer }
    else if type_ = "min_kernel_version" then do
      let v ← jsonReadU16 cap ["value"] none
      let writer ← st.writer.writeU32 (((1 <<< 14) - 1) ||| (v.toNat <<< 15))
      .ok { st with writer := writer }
    else if type_ = "handle_table_size" then do
      let v ← jsonReadInt cap ["value"] 0 ((1 <<< 10) - 1) none
      let writer ← st.writer.writeU32 (((1 <<< 15) - 1) ||| (v.toNat <<< 16))
      .ok { st with writer := writer }
    else if type_ = "debug_flags" then do
      let value ← jsonReadDict cap ["value"] none
      let allowDebug ← jsonReadBool (.obj value) ["allow_debug"] (some (.bool false))
      let forceDebug ← jsonReadBool (.obj value) ["force_debug"] (some (.bool false))
      let forceDebugProd ←
        jsonReadBool (.obj value) ["force_debug_prod"] (some (.bool false))
      if (if allowDebug then 1 else 0) + (if forceDebug then 1 else 0) +
          (if forceDebugProd then 1 else 0) ≤ 1 then do
        let word := (((((1 <<< 16) - 1) ||| (if allowDebug then 1 <<< 17 else 0)) |||
          (if forceDebugProd then 1 <<< 18 else 0)) |||
          (if forceDebug then 1 <<< 19 else 0))
        let writer ← st.writer.writeU32 word
        .ok { st with writer := writer }
      else .error (.abort "only one of allow_debug, force_debug, or force_debug_prod can be set")
    else .error (.abort ("unrecognised kernel capability type " ++ type_))

/-- One iteration of the `for cap_idx, cap in enumerate(kernel_caps)` loop
of `write_kc`: the dict check, the 32-entry cap, then the dispatch. -/
def kcStep (capIdx : Nat) (st : KCState) (cap : Json) : Except Err KCState := do
  let .obj _ := cap | .error (.abort "kernel capabilities must be dicts")
  if capIdx < 32 then kcBody st cap
  else .error (.abort "too many kernel capabilities (max = 32)")

/-- The `for cap_idx, cap in enumerate(kernel_caps)` loop of `write_kc`. -/
def kcLoop : Nat → KCState → List Json → Except Err KCState
  | _, st, [] => .ok st
  | i, st, cap :: rest => do
    let st' ← kcStep i st cap
    kcLoop (i + 1) st' rest

/-- `write_kc`. -/
def writeKC (contents : Json) : Except Err BinaryWriter := do
  let caps ← jsonReadList contents ["kernel_capabilities"] none
  let st ← kcLoop 0 ⟨⟨[], 0⟩, none, none⟩ caps
  .ok st.writer

/-- `write_acid(contents, sac_writer, kc_writer)`.  (The stray
`print(hex(len(writer.stream)))` logging line is not modelled.) -/
def writeAcid (contents : Json) (sacW kcW : BinaryWriter) :
    Except Err BinaryWriter := do
  let w : BinaryWriter := ⟨[], 0⟩
  let w := w.write (List.replicate 0x100 0) -- RSA2048 signature
  let w := w.write (List.replicate 0x100 0) -- RSA2048 public key
  let w ← w.writeStringRaw "ACID"
  let w := w.seekRel 4 -- skip size for now
  let w := w.seekRel 4 -- skipped version and unknown field
  let isRetail ← jsonReadBool contents ["is_retail"] none
  let unqualified ← jsonReadBool contents ["unqualified_approval"] (some (.bool false))
  let pool ← jsonReadInt contents ["pool_partition"] 0 3 none
  let acidFlags := (((if isRetail then 1 else 0) |||
    (if unqualified then 2 else 0)) ||| (pool.toNat <<< 2))
  let w ← w.writeU32 acidFlags
  let idMin ← jsonReadU64 contents ["program_id_range_min", "title_id_range_min"] none
  let idMax ← jsonReadU64 contents ["program_id_range_max", "title_id_range_max"] none
  let w ← w.writeU64 idMin.toNat
  let w ← w.writeU64 idMax.toNat
  let w := w.seekRel 0x20
  -- ACID - Filesystem Access Control
  let fsAccess ← jsonReadDict contents ["filesystem_access"] none
  let fsPermissions ← jsonReadU64 (.obj fsAccess) ["permissions"] none
  let facOffset := w.pos
  let w ← w.writeU8 1 -- version
  let w ← w.writeU8 0 -- content owner ID count
  let w ← w.writeU8 0 -- save data owner ID count
  let w := w.seekAbs (facOffset + 4)
  let w ← w.writeU64 fsPermissions.toNat
  let w ← w.writeU64 0 -- content owner ID min
  let w ← w.writeU64 0 -- content owner ID max
  let w ← w.writeU64 0 -- save data owner ID min
  let w ← w.writeU64 0 -- save data owner ID max
  let facSize := w.pos - facOffset
  -- ACID - Service Access Control
  let w := w.align 0x10
  let sacOffset := w.pos
  let sacSize := sacW.stream.length
  let w := w.seekAbs sacOffset
  let w := w.write sacW.stream
  -- ACID - Kernel Capabilities
  let w := w.align 0x10
  let kcOffset := w.pos
  let kcSize := kcW.stream.length
  let w := w.seekAbs kcOffset
  let w := w.write kcW.stream
  let acidSize := w.pos
  let w := w.seekAbs 0x204
  let w ← w.writeU32 (acidSize - 0x100)
  let w := w.seekAbs 0x220
  let w ← w.writeU32 facOffset
  let w ← w.writeU32 facSize
  let w ← w.writeU32 sacOffset
  let w ← w.writeU32 sacSize
  let w ← w.writeU32 kcOffset
  let w ← w.writeU32 kcSize
  .ok w

/-- The `for coi in content_owner_ids` loop of `write_aci`: coerce, range
check, write one 64-bit id each. -/
def coiLoop : BinaryWriter → List Json → Except Err BinaryWriter
  | w, [] => .ok w
  | w, coi :: rest => do
    let val ← jsonCoerceInt coi
    if 0 ≤ val ∧ val ≤ (1 <<< 64) - 1 then do
      let w ← w.writeU64 val.toNat
      coiLoop w rest
    else .error (.abort "content_owner_ids entries must be between 0x0 and 0xffffffffffffffff")

/-- The `for sdoi in save_data_owner_ids` loop of `write_aci`: validate each
record and collect the accessibility and id lists (in order). -/
def sdoiCollect : List Int × List Int → List Json →
    Except Err (List Int × List Int)
  | acc, [] => .ok acc
  | (accs, ids), sdoi :: rest => do
    let .obj skvs := sdoi | .error (.abort "save_data_owner_ids entries must be dicts")
    let accessibility ← jsonReadInt (.obj skvs) ["accessibility"] 1 3 none
    let id_ ← jsonReadU64 (.obj skvs) ["id"] none
    sdoiCollect (accs ++ [accessibility], ids ++ [id_]) rest

/-- The `for accessibility in sdoi_accessibilities` loop: one byte each. -/
def sdoiAccLoop : BinaryWriter → List Int → Except Err BinaryWriter
  | w, [] => .ok w
  | w, a :: rest => do
    let w ← w.writeU8 a.toNat
    sdoiAccLoop w rest

/-- The `for id_ in sdoi_ids` loop: one 64-bit id each. -/
def sdoiIdLoop : BinaryWriter → List Int → Except Err BinaryWriter
  | w, [] => .ok w
  | w, i :: rest => do
    let w ← w.writeU64 i.toNat
    sdoiIdLoop w rest

/-- The conditional count-prefix write
`if len(ids): writer.write_u32(len(ids))` from `write_aci`. -/
def cntWrite (w : BinaryWriter) (n : Nat) : Except Err BinaryWriter :=
  if n ≠ 0 then w.writeU32 n else pure w

/-- `write_aci(contents, sac_writer, kc_writer)`. -/
def writeAci (contents : Json) (sacW kcW : BinaryWriter) :
    Except Err BinaryWriter := do
  let w : BinaryWriter := ⟨[], 0⟩
  let fsAccess ← jsonReadDict contents ["filesystem_access"] none
  let contentOwnerIds ← jsonReadList (.obj fsAccess) ["content_owner_ids"] (some (.arr []))
  let saveDataOwnerIds ← jsonReadList (.obj fsAccess) ["save_data_owner_ids"] (some (.arr []))
  let fsPermissions ← jsonReadU64 (.obj fsAccess) ["permissions"] none
  let w ← w.writeStringRaw "ACI0"
  let w := w.seekRel 0xc -- reserved
  let programId ← jsonReadU64 contents ["program_id", "title_id"] none
  let w ← w.writeU64 programId.toNat
  let w := w.seekRel 0x8 -- reserved
  let w := w.seekRel 0x20 -- skip over offsets and sizes for now
  -- ACI - Filesystem Access Header
  let fahOffset := w.pos
  let w ← w.writeU32 1 -- version
  let w ← w.writeU64 fsPermissions.toNat
  let w := w.seekRel 0x10 -- skip over coi/sdoi offsets + sizes for now
  let coiOffset := w.pos
  let w ← cntWrite w contentOwnerIds.length
  let w ← coiLoop w contentOwnerIds
  let coiSize := w.pos - coiOffset
  let sdoiOffset := w.pos
  let w ← cntWrite w saveDataOwnerIds.length
  let sdoi ← sdoiCollect ([], []) saveDataOwnerIds
  let w ← sdoiAccLoop w sdoi.1
  let w := w.align 4
  let w ← sdoiIdLoop w sdoi.2
  let sdoiSize := w.pos - sdoiOffset
  let fahSize := w.pos - fahOffset
  let w := w.seekAbs (fahOffset + 0xc)
  let w ← w.writeU32 (coiOffset - fahOffset) -- content owner IDs offset
  let w ← w.writeU32 coiSize -- content owner IDs size
  let w ← w.writeU32 (sdoiOffset - fahOffset) -- save data owner IDs offset
  let w ← w.writeU32 sdoiSize -- save data owner IDs size
  -- ACI - Service Access Control
  let w := w.seekAbs (fahOffset + fahSize)
  let w := w.align 0x10
  let sacOffset := w.pos
  let w := w.write sacW.stream
  -- ACI - Kernel Capabilities
  let w := w.align 0x10
  let kcOffset := w.pos
  let w := w.write kcW.stream
  let aciSize := w.pos
  let w := w.seekAbs 0x20
  let w ← w.writeU32 fahOffset
  let w ← w.writeU32 fahSize
  let w ← w.writeU32 sacOffset
  let w ← w.writeU32 sacW.stream.length
  let w ← w.writeU32 kcOffset
  let w ← w.writeU32 kcW.stream.length
  let _ := aciSize
  .ok w

/-- `write_meta(contents)`. -/
def writeMeta (contents : Json) : Except Err BinaryWriter := do
  let w : BinaryWriter := ⟨[], 0⟩
  let w ← w.writeStringRaw "META"
  let skg ← jsonReadU32 contents ["signature_key_generation"] (some (.int 0))
  let w ← w.writeU32 skg.toNat
  let w := w.seekRel 0x4 -- reserved
  let is64 ← jsonReadBool contents ["is_64_bit"] none
  let addressSpaceType ← jsonReadInt contents ["address_space_type"] 0 3 none
  let optMem ← jsonReadBool contents ["optimize_memory_allocation"] (some (.bool false))
  let disableDasMerge ←
    jsonReadBool contents ["disable_device_address_space_merge"] (some (.bool false))
  let aliasExtra ←
    jsonReadBool contents ["enable_alias_region_extra_size"] (some (.bool false))
  let preventCodeReads ←
    jsonReadBool contents ["prevent_code_reads"] (some (.bool false))
  let flags := ((((((if is64 then 1 else 0) ||| (addressSpaceType.toNat <<< 1)) |||
    (if optMem then 0x10 else 0)) ||| (if disableDasMerge then 0x20 else 0)) |||
    (if aliasExtra then 0x40 else 0)) ||| (if preventCodeReads then 0x80 else 0))
  let w ← w.writeU8 flags
  let w := w.seekAbs 0xe
  let mtp ← jsonReadInt contents ["main_thread_priority"] 0 0x3f none
  let w ← w.writeU8 mtp.toNat
  let dcpu ← jsonReadU8 contents ["default_cpu_id"] none
  let w ← w.writeU8 dcpu.toNat
  let w := w.seekAbs 0x14
  let srs ← jsonReadInt contents ["system_resource_size"] 0 0x1fe00000 (some (.int 0))
  let w ← w.writeU32 srs.toNat
  let version ← jsonReadU32 contents ["version"] (some (.int 0))
  let w ← w.writeU32 version.toNat
  let mainThreadStackSize ← jsonReadU32 contents ["main_thread_stack_size"] none
  if mainThreadStackSize.toNat &&& 0xfff = 0 then do
    let w ← w.writeU32 mainThreadStackSize.toNat
    let name ← jsonReadStr contents ["name"] 0x10 none
    let w ← w.writeStringFixed name 0x10
    let w := w.write (List.replicate 16 0) -- product code
    let w := w.seekRel 0x30 -- reserved
    let w := w.seekRel 0x10 -- skip ACI/ACID offsets + sizes for now
    .ok w
  else .error (.abort "main_thread_stack_size must be aligned to 0x1000")

/-- `main`, minus argument parsing and file input and output: the pure
configuration-to-bytes build. -/
def build (contents : Json) : Except Err (List Nat) := do
  let sacW ← writeSac contents
  let kcW ← writeKC contents
  -- META section
  let metaW ← writeMeta contents
  let metaSize := metaW.stream.length
  let w : BinaryWriter := ⟨[], 0⟩
  let w := w.write metaW.stream
  -- ACID section
  let w := w.seekAbs metaSize
  let w := w.align 0x10
  let acidOffset := w.pos
  let acidW ← writeAcid contents sacW kcW
  let acidSize := acidW.stream.length
  let w := w.write acidW.stream
  -- ACI section
  let w := w.align 0x10
  let aciOffset := w.pos
  let aciW ← writeAci contents sacW kcW
  let aciSize := aciW.stream.length
  let w := w.write aciW.stream
  -- write ACI/ACID offsets + size into META
  let w := w.seekAbs 0x70
  let w ← w.writeU32 aciOffset
  let w ← w.writeU32 aciSize
  let w ← w.writeU32 acidOffset
  let w ← w.writeU32 acidSize
  .ok w.stream

/-! ### Derived definitions

Closed-form byte shapes and concrete configurations referenced by the
theorems; these are not part of the embedding itself. -/

/-- The cursor position `align` advances to: the next multiple of `n` at or
past `p`. -/
def alignUp (p n : Nat) : Nat := p + (n - p % n) % n

/-- The bytes one hosted service entry contributes: `0x80 | (len - 1)`
followed by the raw ASCII code points. -/
def hostEntryBytes (s : String) : List Nat :=
  (0x80 ||| (s.length - 1)) :: s.data.map Char.toNat

/-- The bytes one accessible service entry contributes: `len - 1` followed
by the raw ASCII code points. -/
def accessEntryBytes (s : String) : List Nat :=
  (s.length - 1) :: s.data.map Char.toNat

/-- Concatenated hosted-service entries, in input order. -/
def hostBytes (hs : List String) : List Nat :=
  (hs.map hostEntryBytes).flatten

/-- Concatenated accessible-service entries, in input order. -/
def accessBytes (hs : List String) : List Nat :=
  (hs.map accessEntryBytes).flatten

/-- A service-name list is encodable: 1–8 characters, all ASCII. -/
def ValidService (s : String) : Prop :=
  (1 ≤ s.length ∧ s.length ≤ 8) ∧ ∀ ch ∈ s.data, ch.toNat < 128

/-- C1: a `syscalls` capability granting exactly the numbers
0, 23, 24 and 191. -/
def syscallsExample : Json := .obj [("kernel_capabilities", .arr [
  .obj [("type", .str "syscalls"), ("value", .obj [
    ("svc_a", .int 0), ("svc_b", .int 23), ("svc_c", .int 24),
    ("svc_d", .int 191)])]])]

/-- C2: a well-formed `map_page` capability entry with a 24-bit page
address under its `value` field. -/
def mapPageExample : Json := .obj [("kernel_capabilities", .arr [
  .obj [("type", .str "map_page"), ("value", .int 0x123)]])]

/-- C3: an `irq_pair` entry (slot 0 = 5, slot 1 = none) with no preceding
`syscalls` entry. -/
def irqPairAlone : Json := .obj [("kernel_capabilities", .arr [
  .obj [("type", .str "irq_pair"), ("value", .arr [.int 5, .null])]])]

/-- C3: the same `irq_pair` entry preceded by a `syscalls` entry granting
number 1 (which leaves the stale locals `data = 1`, `val = 1`). -/
def irqPairAfterSyscalls : Json := .obj [("kernel_capabilities", .arr [
  .obj [("type", .str "syscalls"), ("value", .obj [("svc_x", .int 1)])],
  .obj [("type", .str "irq_pair"), ("value", .arr [.int 5, .null])]])]

/-- C7: a `syscalls` mapping containing the duplicate number 5 under two
names. -/
def syscallsDuplicates : Json := .obj [("kernel_capabilities", .arr [
  .obj [("type", .str "syscalls"), ("value", .obj [
    ("a", .int 5), ("b", .int 5)])]])]

/-- C7 witness: a `syscalls` capability entry whose mapping contains the
out-of-range number 0x100. -/
def badSyscallsCap : Json :=
  .obj [("type", .str "syscalls"), ("value", .obj [("svc_bad", .int 0x100)])]

/-- C7 witness: a configuration containing `badSyscallsCap`. -/
def badSyscallsExample : Json :=
  .obj [("kernel_capabilities", .arr [badSyscallsCap])]

/-- C8 witness: a valid `handle_table_size` capability entry. -/
def htsCap : Json :=
  .obj [("type", .str "handle_table_size"), ("value", .int 100)]

/-- C8 witness: a configuration with 33 kernel-capability entries. -/
def cfg33Caps : Json :=
  .obj [("kernel_capabilities", .arr (List.replicate 33 htsCap))]

/-- C8 witness: a `debug_flags` entry with both `allow_debug` and
`force_debug` set. -/
def debugBothCap : Json :=
  .obj [("type", .str "debug_flags"), ("value", .obj [
    ("allow_debug", .bool true), ("force_debug", .bool true)])]

/-- C8 witness: a configuration containing `debugBothCap`. -/
def cfgDebugBoth : Json :=
  .obj [("kernel_capabilities", .arr [debugBothCap])]

/-- C8 witness: a configuration hosting a 9-character service name. -/
def cfgName9 : Json :=
  .obj [("service_host", .arr [.str "ninechars"]), ("service_access", .arr [])]

/-- C6 witness: the spec example service lists. -/
def sacExample : Json :=
  .obj [("service_host", .arr [.str "fsp-srv"]),
        ("service_access", .arr [.str "pm:shell", .str "hid"])]

/-- Concatenated 64-bit little-endian encodings of a list of ids. -/
def u64ListBytes (vals : List Int) : List Nat :=
  (vals.map (fun v => leBytes 8 v.toNat)).flatten

/-- The 16 bytes `write_string(name, max_len = 0x10)` produces: the name
truncated to 16 characters, NUL-padded to exactly 16, as code points. -/
def nameBytes (s : String) (n : Nat) : List Nat :=
  (s.data.take n ++
    List.replicate (n - (s.data.take n).length) (Char.ofNat 0)).map Char.toNat

/-- Closed form of the Acid region produced by `write_acid`: fixed
0x240-byte header (signature and key zero-blocks, magic, backpatched size
and sub-table offset/size fields), the fixed 0x2c-byte filesystem-access
block, then the service table at 0x270 and the capability table at the next
16-byte boundary. -/
def acidStream (acidFlags : Nat) (idMin idMax perms : Int)
    (sac kc : List Nat) : List Nat :=
  let kcOff := alignUp (0x270 + sac.length) 16
  let acidSize := kcOff + kc.length
  List.replicate 0x100 0 ++ List.replicate 0x100 0
  ++ [65, 67, 73, 68]
  ++ leBytes 4 (acidSize - 0x100)
  ++ List.replicate 4 0
  ++ leBytes 4 acidFlags
  ++ leBytes 8 idMin.toNat ++ leBytes 8 idMax.toNat
  ++ leBytes 4 0x240 ++ leBytes 4 0x2c ++ leBytes 4 0x270
  ++ leBytes 4 sac.length ++ leBytes 4 kcOff ++ leBytes 4 kc.length
  ++ List.replicate 8 0
  ++ [1] ++ [0] ++ [0] ++ [0]
  ++ leBytes 8 perms.toNat
  ++ leBytes 8 0 ++ leBytes 8 0 ++ leBytes 8 0 ++ leBytes 8 0
  ++ List.replicate 4 0
  ++ sac ++ List.replicate (kcOff - (0x270 + sac.length)) 0 ++ kc

/-- Closed form of the Aci region produced by `write_aci`, as a function of
the extracted program id, permission mask, coerced content-owner ids,
save-data-owner accessibilities and ids, and the two embedded tables. -/
def aciStream (progId perms : Int) (coiVals accs ids : List Int)
    (sac kc : List Nat) : List Nat :=
  let coiB : List Nat :=
    (if coiVals.length = 0 then [] else leBytes 4 coiVals.length)
      ++ u64ListBytes coiVals
  let m := accs.length
  let sdoiCntB : List Nat := if m = 0 then [] else leBytes 4 m
  let accsB : List Nat := accs.map (fun a => a.toNat)
  let preAlign := 0x5c + coiB.length + sdoiCntB.length + m
  let pad1 := alignUp preAlign 4 - preAlign
  let idsB := u64ListBytes ids
  let fahEnd := preAlign + pad1 + idsB.length
  let sdoiSize := fahEnd - (0x5c + coiB.length)
  let sacOff := alignUp fahEnd 16
  let kcOff := alignUp (sacOff + sac.length) 16
  [65, 67, 73, 48]
  ++ List.replicate 0xc 0
  ++ leBytes 8 progId.toNat
  ++ List.replicate 8 0
  ++ leBytes 4 0x40 ++ leBytes 4 (fahEnd - 0x40) ++ leBytes 4 sacOff
  ++ leBytes 4 sac.length ++ leBytes 4 kcOff ++ leBytes 4 kc.length
  ++ List.replicate 8 0
  ++ leBytes 4 1 ++ leBytes 8 perms.toNat
  ++ leBytes 4 0x1c ++ leBytes 4 coiB.length
  ++ leBytes 4 (0x1c + coiB.length) ++ leBytes 4 sdoiSize
  ++ coiB ++ sdoiCntB ++ accsB ++ List.replicate pad1 0 ++ idsB
  ++ List.replicate (sacOff - fahEnd) 0 ++ sac
  ++ List.replicate (kcOff - (sacOff + sac.length)) 0 ++ kc

/-- A complete valid configuration (one `kernel_flags` capability, empty
service lists, one content-owner id), used to witness the build-level
claims. -/
def buildExample : Json := .obj [
  ("name", .str "test"),
  ("signature_key_generation", .int 1),
  ("is_64_bit", .bool true),
  ("address_space_type", .int 1),
  ("main_thread_priority", .int 44),
  ("default_cpu_id", .int 0),
  ("main_thread_stack_size", .int 0x1000),
  ("is_retail", .bool false),
  ("pool_partition", .int 0),
  ("program_id", .int 0x0100000000000000),
  ("program_id_range_min", .int 0),
  ("program_id_range_max", .int 0xffffffffffffffff),
  ("filesystem_access", .obj [
    ("permissions", .int 0xffffffffffffffff),
    ("content_owner_ids", .arr [.int 0x0100000000000001])]),
  ("service_access", .arr []),
  ("service_host", .arr []),
  ("kernel_capabilities", .arr [
    .obj [("type", .str "kernel_flags"), ("value", .obj [
      ("highest_thread_priority", .int 63),
      ("lowest_thread_priority", .int 24),
      ("lowest_cpu_id", .int 0),
      ("highest_cpu_id", .int 2)])]])]

/-- The bytes `build` produces for `buildExample`. -/
def buildExampleOut : List Nat := ((build buildExample).toOption).getD []

/-- Replace the first binding of `key` (or append one) in an object. -/
def objSetVal : List (String × Json) → String → Json → List (String × Json)
  | [], key, v => [(key, v)]
  | (k, old) :: rest, key, v =>
    if k = key then (k, v) :: rest else (k, old) :: objSetVal rest key v

/-- A configuration with the two owner-id lists of its
`filesystem_access` object replaced by arbitrary values. -/
def setOwnerLists (kvs fkvs : List (String × Json)) (v1 v2 : Json) : Json :=
  .obj (objSetVal kvs "filesystem_access"
    (.obj (objSetVal (objSetVal fkvs "content_owner_ids" v1)
      "save_data_owner_ids" v2)))

/-! ### Writer-state algebra

Effect lemmas for the `BinaryWriter` operations, used to turn the
step-by-step writer computations of the embedded functions into explicit
byte-list concatenations. -/

theorem leBytes_length (n v : Nat) : (leBytes n v).length = n := by
  simp [leBytes]

theorem alignUp_mod16 (p : Nat) : alignUp p 16 % 16 = 0 := by
  unfold alignUp; omega

theorem le_alignUp (p n : Nat) : p ≤ alignUp p n := Nat.le_add_right _ _

theorem alignUp_le (p : Nat) : alignUp p 16 ≤ p + 15 := by
  unfold alignUp; omega

theorem alignUp_of_mod16 (p : Nat) (h : p % 16 = 0) : alignUp p 16 = p := by
  unfold alignUp; omega

namespace BinaryWriter

theorem eq_of (w1 w2 : BinaryWriter) (h1 : w1.stream = w2.stream)
    (h2 : w1.pos = w2.pos) : w1 = w2 := by
  cases w1; cases w2; simp_all

theorem fillTo_eq (w : BinaryWriter) (t : Nat) :
    w.fillTo t = ⟨w.stream ++ List.replicate (t - w.stream.length) 0, w.pos⟩ := by
  unfold fillTo
  split
  · rfl
  · rename_i h
    rw [Nat.sub_eq_zero_of_le (by omega)]
    simp

theorem write_pos (w : BinaryWriter) (raw : List Nat) :
    (w.write raw).pos = w.pos + raw.length := rfl

theorem write_length (w : BinaryWriter) (raw : List Nat) :
    (w.write raw).stream.length = max w.stream.length (w.pos + raw.length) := by
  obtain ⟨s, p⟩ := w
  unfold write
  rw [fillTo_eq]
  simp only [List.length_append, List.length_take, List.length_drop,
    List.length_replicate]
  omega

theorem write_getElem (w : BinaryWriter) (raw : List Nat) (n : Nat) :
    (w.write raw).stream[n]? =
      if n < w.pos then (if n < w.stream.length then w.stream[n]? else some 0)
      else if n < w.pos + raw.length then raw[n - w.pos]?
      else w.stream[n]? := by
  obtain ⟨s, p⟩ := w
  unfold write
  rw [fillTo_eq]
  simp only [List.getElem?_append, List.getElem?_take, List.getElem?_drop,
    List.getElem?_replicate, List.length_append, List.length_take,
    List.length_replicate]
  split_ifs <;>
    first
    | rfl
    | omega
    | (congr 1; omega)
    | (rw [List.getElem?_eq_none_iff]; omega)
    | (symm; rw [List.getElem?_eq_none_iff]; omega)
    | (exact (List.getElem?_eq_none (by omega)).trans
        (List.getElem?_eq_none (by omega)).symm)

theorem write_write (w : BinaryWriter) (r1 r2 : List Nat) :
    (w.write r1).write r2 = w.write (r1 ++ r2) := by
  apply eq_of
  · apply List.ext_getElem?
    intro n
    rw [write_getElem, write_getElem, write_getElem, write_pos, write_length]
    simp only [List.getElem?_append, List.length_append]
    split_ifs <;>
      first
      | rfl
      | omega
      | (congr 1; omega)
      | (rw [List.getElem?_eq_none_iff]; omega)
      | (symm; rw [List.getElem?_eq_none_iff]; omega)
      | (exact (List.getElem?_eq_none (by omega)).trans
          (List.getElem?_eq_none (by omega)).symm)
  · rw [write_pos, write_pos, write_pos]
    simp only [List.length_append]
    omega

/-- Writing with the cursor at the end of the stream appends. -/
theorem write_append (s raw : List Nat) (p : Nat) (h : s.length = p) :
    BinaryWriter.write ⟨s, p⟩ raw = ⟨s ++ raw, p + raw.length⟩ := by
  apply eq_of
  · apply List.ext_getElem?
    intro n
    rw [write_getElem]
    simp only [List.getElem?_append]
    split_ifs <;>
      first
      | rfl
      | omega
      | (congr 1; omega)
      | (rw [List.getElem?_eq_none_iff]; omega)
      | (symm; rw [List.getElem?_eq_none_iff]; omega)
      | (exact (List.getElem?_eq_none (by omega)).trans
          (List.getElem?_eq_none (by omega)).symm)
  · exact write_pos _ _

/-- Writing strictly inside the existing stream overwrites in place:
with the cursor at the end of prefix `A`, a write of `raw` over a region
`B` of the same length leaves `A ++ raw ++ C`. -/
theorem write_patch (A B C raw : List Nat) (p : Nat)
    (hA : A.length = p) (hB : B.length = raw.length) :
    BinaryWriter.write ⟨A ++ (B ++ C), p⟩ raw =
      ⟨A ++ (raw ++ C), p + raw.length⟩ := by
  apply eq_of
  · apply List.ext_getElem?
    intro n
    rw [write_getElem]
    simp only [List.getElem?_append, List.length_append]
    split_ifs <;>
      first
      | rfl
      | omega
      | (congr 1; omega)
      | (rw [List.getElem?_eq_none_iff]; omega)
      | (symm; rw [List.getElem?_eq_none_iff]; omega)
      | (exact (List.getElem?_eq_none (by omega)).trans
          (List.getElem?_eq_none (by omega)).symm)
  · exact write_pos _ _

/-- Seeking at or past the end of the stream zero-extends it. -/
theorem seekAbs_ext (s : List Nat) (q p : Nat) (h : s.length ≤ p) :
    BinaryWriter.seekAbs ⟨s, q⟩ p = ⟨s ++ List.replicate (p - s.length) 0, p⟩ := by
  unfold seekAbs
  rw [fillTo_eq]

theorem seekAbs_in (s : List Nat) (q p : Nat) (h : p ≤ s.length) :
    BinaryWriter.seekAbs ⟨s, q⟩ p = ⟨s, p⟩ := by
  unfold seekAbs
  rw [fillTo_eq]
  rw [Nat.sub_eq_zero_of_le h]
  simp

theorem seekRel_eq (s : List Nat) (p d : Nat) :
    BinaryWriter.seekRel ⟨s, p⟩ d = BinaryWriter.seekAbs ⟨s, p⟩ (p + d) := rfl

theorem align_eq (w : BinaryWriter) (n : Nat) :
    w.align n = w.seekAbs (alignUp w.pos n) := rfl

theorem seekRel_def (w : BinaryWriter) (d : Nat) :
    w.seekRel d = w.seekAbs (w.pos + d) := rfl

theorem seekAbs_pos (w : BinaryWriter) (p : Nat) : (w.seekAbs p).pos = p := by
  unfold seekAbs fillTo
  split <;> rfl

theorem seekAbs_length (w : BinaryWriter) (p : Nat) :
    (w.seekAbs p).stream.length = max w.stream.length p := by
  unfold seekAbs
  rw [fillTo_eq]
  simp only [List.length_append, List.length_replicate]
  omega

/-- Inversion of a successful `write_u8`. -/
theorem writeU8_ok {w w' : BinaryWriter} {v : Nat}
    (h : BinaryWriter.writeU8 w v = .ok w') :
    w' = w.write (leBytes 1 v) ∧ v < 2 ^ 8 := by
  unfold writeU8 at h
  split at h
  · exact ⟨(Except.ok.inj h).symm, by assumption⟩
  · exact Except.noConfusion h

/-- Inversion of a successful `write_u32`. -/
theorem writeU32_ok {w w' : BinaryWriter} {v : Nat}
    (h : BinaryWriter.writeU32 w v = .ok w') :
    w' = w.write (leBytes 4 v) ∧ v < 2 ^ 32 := by
  unfold writeU32 at h
  split at h
  · exact ⟨(Except.ok.inj h).symm, by assumption⟩
  · exact Except.noConfusion h

/-- Inversion of a successful `write_u64`. -/
theorem writeU64_ok {w w' : BinaryWriter} {v : Nat}
    (h : BinaryWriter.writeU64 w v = .ok w') :
    w' = w.write (leBytes 8 v) ∧ v < 2 ^ 64 := by
  unfold writeU64 at h
  split at h
  · exact ⟨(Except.ok.inj h).symm, by assumption⟩
  · exact Except.noConfusion h

/-- Inversion of a successful fixed-width `write_string`. -/
theorem writeStringFixed_ok {w w' : BinaryWriter} {s : String} {n : Nat}
    (h : BinaryWriter.writeStringFixed w s n = .ok w') :
    w' = w.write (nameBytes s n) := by
  simp only [writeStringFixed] at h
  split at h
  · exact (Except.ok.inj h).symm
  · exact Except.noConfusion h

end BinaryWriter

theorem leBytes_zero (n : Nat) : leBytes n 0 = List.replicate n 0 := by
  unfold leBytes
  induction n with
  | zero => rfl
  | succ k ih => rw [List.range_succ, List.map_append, ih]; simp [List.replicate_succ']

theorem u64ListBytes_length (vals : List Int) :
    (u64ListBytes vals).length = 8 * vals.length := by
  unfold u64ListBytes
  induction vals with
  | nil => rfl
  | cons v rest ih => simp_all [leBytes_length]; omega

theorem u64ListBytes_cons (v : Int) (rest : List Int) :
    u64ListBytes (v :: rest) = leBytes 8 v.toNat ++ u64ListBytes rest := by
  simp [u64ListBytes]

theorem nameBytes_length (s : String) (n : Nat) :
    (nameBytes s n).length = n := by
  unfold nameBytes
  simp only [List.length_map, List.length_append, List.length_replicate,
    List.length_take]
  omega

/-! ### `Except` plumbing -/

theorem bind_ok_def {α β : Type} (a : α) (f : α → Except Err β) :
    (Except.ok a >>= f) = f a := rfl

theorem bind_error_def {α β : Type} (e : Err) (f : α → Except Err β) :
    ((Except.error e : Except Err α) >>= f) = .error e := rfl

theorem exBind {α β : Type} {x : Except Err α} {f : α → Except Err β} {b : β}
    (h : (x >>= f) = .ok b) : ∃ a, x = .ok a ∧ f a = .ok b := by
  cases x with
  | error e => rw [bind_error_def] at h; exact Except.noConfusion h
  | ok a => rw [bind_ok_def] at h; exact ⟨a, rfl, h⟩

/-- Inversion of a successful ranged integer read. -/
theorem jsonReadInt_ok_bounds {j : Json} {keys : List String} {lo hi : Int}
    {d : Option Json} {v : Int} (h : jsonReadInt j keys lo hi d = .ok v) :
    lo ≤ v ∧ v ≤ hi := by
  unfold jsonReadInt at h
  obtain ⟨data, _, h2⟩ := exBind h
  obtain ⟨val, _, h3⟩ := exBind h2
  split at h3
  · cases h3; assumption
  · exact Except.noConfusion h3

/-! ### Claim C1: the syscalls example {0, 23, 24, 191} -/

/-- C1, counterexample: the spec says the mapping {0, 23, 24, 191}
encodes into exactly two 32-bit words (8 bytes).  The encoder actually
emits 12 bytes — syscall 24 falls in group 1 (`24 / 24 = 1`), not group 0,
so three groups (0, 1 and 7) are non-empty. -/
theorem syscalls_example_not_two_words :
    writeKC syscallsExample =
      .ok ⟨[0x2f, 0, 0, 0x10, 0x2f, 0, 0, 0x20, 0x0f, 0, 0, 0xf0], 12⟩ ∧
    ([0x2f, 0, 0, 0x10, 0x2f, 0, 0, 0x20, 0x0f, 0, 0, 0xf0] : List Nat).length ≠
      2 * 4 := by
  constructor
  · rfl
  · decide

/-- C1, amended: encoding a `syscalls` mapping containing exactly
{0, 23, 24, 191} emits exactly three 32-bit words — group 0 with bitmap
bits 0 and 23 set, group 1 with bitmap bit 0 set (for syscall 24), and
group 7 with bitmap bit 23 set (for syscall 191) — each word carrying the
4-wide tag 0xF, the 24-bit presence bitmap at bit 5 and the 3-bit group
index at bit 29. -/
theorem syscalls_example_three_words :
    writeKC syscallsExample = .ok ⟨
      leBytes 4 ((((1 <<< 4) - 1) ||| (((1 <<< 0) ||| (1 <<< 23)) <<< 5)) ||| (0 <<< 29)) ++
      leBytes 4 ((((1 <<< 4) - 1) ||| ((1 <<< 0) <<< 5)) ||| (1 <<< 29)) ++
      leBytes 4 ((((1 <<< 4) - 1) ||| ((1 <<< 23) <<< 5)) ||| (7 <<< 29)), 12⟩ := by
  rfl

/-! ### Claim C2: the map_page encoder -/

/-- C2: on a well-formed `map_page` entry the encoder raises `TypeError`
instead of emitting a word — the source rebinds `cap` to the integer tag
`(1 << 7) - 1` and then calls `json_read_int(cap, "value", ...)` on that
integer, so the claimed page-address word is never produced. -/
theorem map_page_type_error :
    writeKC mapPageExample = .error Err.typeError := by
  rfl

/-! ### Claim C3: the irq_pair encoder -/

/-- C3: the `irq_pair` branch does not encode the supplied slot value.
With no preceding `syscalls` entry, reading the unassigned local `data`
raises `UnboundLocalError` (`nameError`); with a preceding `syscalls` entry
granting number 1, the non-`none` slot 5 is encoded as the stale value 1
(`1 <<< 11`), not as 5, while the `none` slot still encodes the 0x3FF
sentinel. -/
theorem irq_pair_stale_locals :
    writeKC irqPairAlone = .error Err.nameError ∧
    writeKC irqPairAfterSyscalls = .ok ⟨
      leBytes 4 ((((1 <<< 4) - 1) ||| ((1 <<< 1) <<< 5)) ||| (0 <<< 29)) ++
      leBytes 4 ((((1 <<< 11) - 1) ||| (1 <<< 11)) ||| (0x3ff <<< 21)), 8⟩ := by
  exact ⟨rfl, rfl⟩

/-! ### Claim C7: syscalls validation -/

/-- C7, counterexample: the spec says duplicate syscall numbers fail
validation.  A mapping with the number 5 under two names encodes
successfully (the duplicate merely sets the same bitmap bit again). -/
theorem syscalls_duplicates_accepted :
    writeKC syscallsDuplicates =
      .ok ⟨leBytes 4 ((((1 <<< 4) - 1) ||| ((1 <<< 5) <<< 5)) ||| (0 <<< 29)), 4⟩ := by
  rfl

/-! ### Success inversion for the kernel-capability loop -/

theorem jsonReadValue_ok_obj {j : Json} {keys : List String}
    {d : Option Json} {v : Json} (h : jsonReadValue j keys d = .ok v) :
    ∃ kvs, j = .obj kvs := by
  cases j <;> simp [jsonReadValue] at h <;> exact ⟨_, rfl⟩

theorem jsonReadStr_ok_obj {j : Json} {keys : List String} {m : Int}
    {d : Option Json} {s : String} (h : jsonReadStr j keys m d = .ok s) :
    ∃ kvs, j = .obj kvs := by
  unfold jsonReadStr at h
  obtain ⟨data, hdata, _⟩ := exBind h
  exact jsonReadValue_ok_obj hdata

theorem syscallsLoop_ok_inrange {items : List (String × Json)}
    {acc res : List Nat × Option Json × Option Int}
    (h : syscallsLoop acc items = .ok res) :
    ∀ p ∈ items, ∀ v : Int, p.2 = .int v → 0 ≤ v ∧ v ≤ 0xbf := by
  induction items generalizing acc with
  | nil => intro p hp; cases hp
  | cons item rest ih =>
    obtain ⟨groups, d0, v0⟩ := acc
    obtain ⟨nm, data⟩ := item
    unfold syscallsLoop at h
    obtain ⟨val, hco, hrest⟩ := exBind h
    split at hrest
    · rename_i hrange
      intro p hp v hv
      rcases List.mem_cons.mp hp with hhead | htail
      · subst hhead
        simp only at hv
        subst hv
        simp [jsonCoerceInt] at hco
        omega
      · exact ih hrest p htail v hv
    · exact Except.noConfusion hrest

theorem kcLoop_ok_forall {caps : List Json} {cap : Json} {i : Nat}
    {st st' : KCState} (h : kcLoop i st caps = .ok st') (hmem : cap ∈ caps) :
    ∃ j st1 st2, kcStep j st1 cap = .ok st2 := by
  induction caps generalizing i st with
  | nil => cases hmem
  | cons c rest ih =>
    unfold kcLoop at h
    obtain ⟨st1, hstep, hloop⟩ := exBind h
    rcases List.mem_cons.mp hmem with hhead | htail
    · subst hhead
      exact ⟨i, st, st1, hstep⟩
    · exact ih hloop htail

theorem kcStep_ok_syscalls_inrange {j : Nat} {st1 st2 : KCState} {cap : Json}
    {items : List (String × Json)}
    (h : kcStep j st1 cap = .ok st2)
    (htype : jsonReadStr cap ["type"] (-1) none = .ok "syscalls")
    (hval : jsonReadDict cap ["value"] none = .ok items) :
    ∀ p ∈ items, ∀ v : Int, p.2 = .int v → 0 ≤ v ∧ v ≤ 0xbf := by
  obtain ⟨ckvs, rfl⟩ := jsonReadStr_ok_obj htype
  unfold kcStep at h
  simp only at h
  split at h
  case isFalse => exact Except.noConfusion h
  case isTrue hj =>
    unfold kcBody at h
    rw [htype] at h
    simp only [bind_ok_def] at h
    rw [if_pos trivial] at h
    rw [hval] at h
    simp only [bind_ok_def] at h
    obtain ⟨res, hloop, _⟩ := exBind h
    exact syscallsLoop_ok_inrange hloop

/-- C7, amended: whenever the `syscalls` mapping of some capability entry
contains a number outside [0, 0xBF], the whole capability encoding fails. -/
theorem syscalls_out_of_range_fails (c cap : Json) (caps : List Json)
    (items : List (String × Json)) (name : String) (v : Int)
    (hcaps : jsonReadList c ["kernel_capabilities"] none = .ok caps)
    (hmem : cap ∈ caps)
    (htype : jsonReadStr cap ["type"] (-1) none = .ok "syscalls")
    (hval : jsonReadDict cap ["value"] none = .ok items)
    (hitem : (name, Json.int v) ∈ items)
    (hv : ¬(0 ≤ v ∧ v ≤ 0xbf)) :
    ∃ e, writeKC c = .error e := by
  cases hkc : writeKC c with
  | error e => exact ⟨e, rfl⟩
  | ok w =>
    exfalso
    unfold writeKC at hkc
    obtain ⟨caps', hcaps', hrest⟩ := exBind hkc
    rw [hcaps] at hcaps'
    injection hcaps' with hc
    subst hc
    obtain ⟨st, hloop, _⟩ := exBind hrest
    obtain ⟨j, st1, st2, hstep⟩ := kcLoop_ok_forall hloop hmem
    exact hv (kcStep_ok_syscalls_inrange hstep htype hval (name, Json.int v)
      hitem v rfl)

/-- C7 witness: the mapping containing 0x100 makes `write_kc` fail. -/
theorem syscalls_out_of_range_fails_witness :
    ∃ e, writeKC badSyscallsExample = .error e :=
  syscalls_out_of_range_fails badSyscallsExample badSyscallsCap
    [badSyscallsCap] [("svc_bad", .int 0x100)] "svc_bad" 0x100
    rfl (List.Mem.head _) rfl rfl (List.Mem.head _) (by decide)

/-! ### Claim C8: build-wide rejections -/

theorem kcStep_ok_lt32 {i : Nat} {st st' : KCState} {cap : Json}
    (h : kcStep i st cap = .ok st') : i < 32 := by
  by_cases hi : i < 32
  · exact hi
  · exfalso
    cases cap
    all_goals unfold kcStep at h
    all_goals try simp only at h
    all_goals
      first
      | exact Except.noConfusion h
      | (rw [if_neg hi] at h; exact Except.noConfusion h)

theorem kcLoop_ok_le32 {caps : List Json} {i : Nat} {st st' : KCState}
    (h : kcLoop i st caps = .ok st') (hne : caps ≠ []) :
    i + caps.length ≤ 32 := by
  induction caps generalizing i st with
  | nil => exact absurd rfl hne
  | cons c rest ih =>
    unfold kcLoop at h
    obtain ⟨st1, hstep, hloop⟩ := exBind h
    have hi := kcStep_ok_lt32 hstep
    cases rest with
    | nil => simp only [List.length_cons, List.length_nil]; omega
    | cons c2 r2 =>
      have hrec := ih hloop (by simp)
      simp only [List.length_cons] at hrec ⊢
      omega

theorem kcStep_ok_not_debug_both {i : Nat} {st st' : KCState} {cap : Json}
    {vkvs : List (String × Json)}
    (h : kcStep i st cap = .ok st')
    (htype : jsonReadStr cap ["type"] (-1) none = .ok "debug_flags")
    (hval : jsonReadDict cap ["value"] none = .ok vkvs)
    (hallow : jsonReadBool (.obj vkvs) ["allow_debug"] (some (.bool false)) = .ok true)
    (hforce : jsonReadBool (.obj vkvs) ["force_debug"] (some (.bool false)) = .ok true) :
    False := by
  obtain ⟨ckvs, rfl⟩ := jsonReadStr_ok_obj htype
  unfold kcStep at h
  simp only at h
  split at h
  case isFalse => exact Except.noConfusion h
  case isTrue hj =>
    unfold kcBody at h
    rw [htype] at h
    rw [bind_ok_def] at h
    beta_reduce at h
    rw [if_neg (by decide), if_neg (by decide), if_neg (by decide),
      if_neg (by decide), if_neg (by decide), if_neg (by decide),
      if_neg (by decide), if_neg (by decide), if_neg (by decide),
      if_pos rfl] at h
    rw [hval] at h
    rw [bind_ok_def] at h
    beta_reduce at h
    rw [hallow] at h
    rw [bind_ok_def] at h
    beta_reduce at h
    rw [hforce] at h
    rw [bind_ok_def] at h
    beta_reduce at h
    obtain ⟨b, _, hb⟩ := exBind h
    rw [if_neg (by cases b <;> decide)] at hb
    exact Except.noConfusion hb

theorem sacHostLoop_ok_valid {l : List Json} {w w' : BinaryWriter}
    (h : sacHostLoop w l = .ok w') :
    ∀ x ∈ l, ∃ s, x = Json.str s ∧ 1 ≤ s.length ∧ s.length ≤ 8 := by
  induction l generalizing w with
  | nil => intro x hx; cases hx
  | cons c rest ih =>
    intro x hx
    unfold sacHostLoop at h
    cases c
    case str s =>
      simp only at h
      split at h
      · rename_i hlen
        obtain ⟨w1, _, h2⟩ := exBind h
        obtain ⟨w2, _, h3⟩ := exBind h2
        rcases List.mem_cons.mp hx with rfl | htail
        · exact ⟨s, rfl, hlen.1, hlen.2⟩
        · exact ih h3 x htail
      · exact Except.noConfusion h
    all_goals exact Except.noConfusion h

theorem sacAccessLoop_ok_valid {l : List Json} {w w' : BinaryWriter}
    (h : sacAccessLoop w l = .ok w') :
    ∀ x ∈ l, ∃ s, x = Json.str s ∧ 1 ≤ s.length ∧ s.length ≤ 8 := by
  induction l generalizing w with
  | nil => intro x hx; cases hx
  | cons c rest ih =>
    intro x hx
    unfold sacAccessLoop at h
    cases c
    case str s =>
      simp only at h
      split at h
      · rename_i hlen
        obtain ⟨w1, _, h2⟩ := exBind h
        obtain ⟨w2, _, h3⟩ := exBind h2
        rcases List.mem_cons.mp hx with rfl | htail
        · exact ⟨s, rfl, hlen.1, hlen.2⟩
        · exact ih h3 x htail
      · exact Except.noConfusion h
    all_goals exact Except.noConfusion h

/-- C8: the build rejects (with an error, producing no output) a
configuration with 33 kernel-capability entries; a `debug_flags` entry with
both `allow_debug` and `force_debug` set; and a service name of length 9 in
either service list. -/
theorem build_rejections (c : Json) :
    (∀ caps, jsonReadList c ["kernel_capabilities"] none = .ok caps →
      caps.length = 33 → ∃ e, build c = .error e) ∧
    (∀ caps cap vkvs, jsonReadList c ["kernel_capabilities"] none = .ok caps →
      cap ∈ caps →
      jsonReadStr cap ["type"] (-1) none = .ok "debug_flags" →
      jsonReadDict cap ["value"] none = .ok vkvs →
      jsonReadBool (.obj vkvs) ["allow_debug"] (some (.bool false)) = .ok true →
      jsonReadBool (.obj vkvs) ["force_debug"] (some (.bool false)) = .ok true →
      ∃ e, build c = .error e) ∧
    (∀ l s, (jsonReadList c ["service_host"] none = .ok l ∨
        jsonReadList c ["service_access"] none = .ok l) →
      Json.str s ∈ l → s.length = 9 → ∃ e, build c = .error e) := by
  refine ⟨?_, ?_, ?_⟩
  · intro caps hcaps hlen
    cases hb : build c with
    | error e => exact ⟨e, rfl⟩
    | ok out =>
      exfalso
      unfold build at hb
      obtain ⟨sacW, _, hb2⟩ := exBind hb
      obtain ⟨kcW, hkc, _⟩ := exBind hb2
      unfold writeKC at hkc
      obtain ⟨caps', hcaps', hloop'⟩ := exBind hkc
      rw [hcaps] at hcaps'
      injection hcaps' with hcc
      subst hcc
      obtain ⟨st, hloop, _⟩ := exBind hloop'
      have hle := kcLoop_ok_le32 hloop (by intro h0; rw [h0] at hlen; simp at hlen)
      omega
  · intro caps cap vkvs hcaps hmem htype hval hallow hforce
    cases hb : build c with
    | error e => exact ⟨e, rfl⟩
    | ok out =>
      exfalso
      unfold build at hb
      obtain ⟨sacW, _, hb2⟩ := exBind hb
      obtain ⟨kcW, hkc, _⟩ := exBind hb2
      unfold writeKC at hkc
      obtain ⟨caps', hcaps', hloop'⟩ := exBind hkc
      rw [hcaps] at hcaps'
      injection hcaps' with hcc
      subst hcc
      obtain ⟨st, hloop, _⟩ := exBind hloop'
      obtain ⟨j, st1, st2, hstep⟩ := kcLoop_ok_forall hloop hmem
      exact kcStep_ok_not_debug_both hstep htype hval hallow hforce
  · intro l s hread hmem hlen
    cases hb : build c with
    | error e => exact ⟨e, rfl⟩
    | ok out =>
      exfalso
      unfold build at hb
      obtain ⟨sacW, hsac, _⟩ := exBind hb
      unfold writeSac at hsac
      obtain ⟨hostL, hhost, h2⟩ := exBind hsac
      obtain ⟨accessL, haccess, h3⟩ := exBind h2
      obtain ⟨w1, hloop1, hloop2⟩ := exBind h3
      rcases hread with hh | ha
      · rw [hhost] at hh
        injection hh with he
        subst he
        obtain ⟨s', hs', hb1, hb2'⟩ := sacHostLoop_ok_valid hloop1 (Json.str s) hmem
        injection hs' with hss
        subst hss
        omega
      · rw [haccess] at ha
        injection ha with he
        subst he
        obtain ⟨s', hs', hb1, hb2'⟩ := sacAccessLoop_ok_valid hloop2 (Json.str s) hmem
        injection hs' with hss
        subst hss
        omega

/-! ### Claim C6: the service-table encoding -/

theorem leBytes_one (v : Nat) (h : v < 256) : leBytes 1 v = [v] := by
  simp [leBytes, List.range_succ, Nat.mod_eq_of_lt h]

theorem sacHostLoop_bytes (hs : List String) :
    ∀ (sw : List Nat),
    (∀ s ∈ hs, (1 ≤ s.length ∧ s.length ≤ 8) ∧ ∀ ch ∈ s.data, ch.toNat < 128) →
    sacHostLoop ⟨sw, sw.length⟩ (hs.map Json.str) =
      .ok ⟨sw ++ hostBytes hs, (sw ++ hostBytes hs).length⟩ := by
  induction hs with
  | nil =>
    intro sw _
    simp [sacHostLoop, hostBytes]
  | cons s rest ih =>
    intro sw hvalid
    have hv := hvalid s (List.Mem.head _)
    have hb : (0x80 ||| (s.length - 1)) < 2 ^ 8 := by
      have h7 : s.length - 1 < 8 := by omega
      generalize s.length - 1 = k at h7
      interval_cases k <;> decide
    have hascii : (s.data.all fun c => decide (c.toNat < 128)) = true := by
      simp only [List.all_eq_true, decide_eq_true_eq]
      exact hv.2
    simp only [List.map_cons]
    unfold sacHostLoop
    simp only
    rw [if_pos ⟨hv.1.1, hv.1.2⟩]
    simp only [BinaryWriter.writeU8]
    rw [if_pos hb, bind_ok_def]
    rw [leBytes_one _ hb, BinaryWriter.write_append _ _ _ rfl]
    simp only [BinaryWriter.writeStringRaw, asciiEncode]
    rw [if_pos hascii, bind_ok_def, bind_ok_def]
    rw [BinaryWriter.write_append _ _ _ (by simp)]
    have hrec := ih (sw ++ [0x80 ||| (s.length - 1)] ++ s.data.map Char.toNat)
      (fun x hx => hvalid x (List.Mem.tail _ hx))
    rw [show sw.length + [0x80 ||| (s.length - 1)].length +
        (s.data.map Char.toNat).length =
      (sw ++ [0x80 ||| (s.length - 1)] ++ s.data.map Char.toNat).length by
        simp; omega, hrec]
    simp [hostBytes, hostEntryBytes]

theorem sacAccessLoop_bytes (as : List String) :
    ∀ (sw : List Nat),
    (∀ s ∈ as, (1 ≤ s.length ∧ s.length ≤ 8) ∧ ∀ ch ∈ s.data, ch.toNat < 128) →
    sacAccessLoop ⟨sw, sw.length⟩ (as.map Json.str) =
      .ok ⟨sw ++ accessBytes as, (sw ++ accessBytes as).length⟩ := by
  induction as with
  | nil =>
    intro sw _
    simp [sacAccessLoop, accessBytes]
  | cons s rest ih =>
    intro sw hvalid
    have hv := hvalid s (List.Mem.head _)
    have hb : (s.length - 1) < 2 ^ 8 := by omega
    have hascii : (s.data.all fun c => decide (c.toNat < 128)) = true := by
      simp only [List.all_eq_true, decide_eq_true_eq]
      exact hv.2
    simp only [List.map_cons]
    unfold sacAccessLoop
    simp only
    rw [if_pos ⟨hv.1.1, hv.1.2⟩]
    simp only [BinaryWriter.writeU8]
    rw [if_pos hb, bind_ok_def]
    rw [leBytes_one _ hb, BinaryWriter.write_append _ _ _ rfl]
    simp only [BinaryWriter.writeStringRaw, asciiEncode]
    rw [if_pos hascii, bind_ok_def, bind_ok_def]
    rw [BinaryWriter.write_append _ _ _ (by simp)]
    have hrec := ih (sw ++ [s.length - 1] ++ s.data.map Char.toNat)
      (fun x hx => hvalid x (List.Mem.tail _ hx))
    rw [show sw.length + [s.length - 1].length +
        (s.data.map Char.toNat).length =
      (sw ++ [s.length - 1] ++ s.data.map Char.toNat).length by
        simp; omega, hrec]
    simp [accessBytes, accessEntryBytes]

/-- C6: `write_sac` emits all hosted entries first, in input order, then all
accessible entries, in input order; a hosted name of length L contributes
the byte `0x80 | (L - 1)` followed by its raw ASCII bytes, an accessible
name the byte `L - 1` (high bit clear) followed by its raw ASCII bytes. -/
theorem sac_encoding (c : Json) (hs as : List String)
    (hhost : jsonReadList c ["service_host"] none = .ok (hs.map Json.str))
    (haccess : jsonReadList c ["service_access"] none = .ok (as.map Json.str))
    (hvh : ∀ s ∈ hs, (1 ≤ s.length ∧ s.length ≤ 8) ∧ ∀ ch ∈ s.data, ch.toNat < 128)
    (hva : ∀ s ∈ as, (1 ≤ s.length ∧ s.length ≤ 8) ∧ ∀ ch ∈ s.data, ch.toNat < 128) :
    writeSac c = .ok ⟨hostBytes hs ++ accessBytes as,
      (hostBytes hs ++ accessBytes as).length⟩ := by
  unfold writeSac
  rw [hhost, bind_ok_def]
  rw [haccess, bind_ok_def]
  rw [show (⟨[], 0⟩ : BinaryWriter) = ⟨[], List.length []⟩ from rfl]
  rw [sacHostLoop_bytes hs [] hvh, bind_ok_def]
  rw [show (List.nil ++ hostBytes hs) = hostBytes hs by simp] at *
  rw [sacAccessLoop_bytes as (hostBytes hs) hva]

/-- C6 witness: `hosted = ["fsp-srv"]`, `accessible = ["pm:shell", "hid"]`
encodes as `0x86 'fsp-srv' 0x07 'pm:shell' 0x02 'hid'`. -/
theorem sac_encoding_witness :
    writeSac sacExample = .ok ⟨[0x86, 0x66, 0x73, 0x70, 0x2d, 0x73, 0x72, 0x76,
      0x07, 0x70, 0x6d, 0x3a, 0x73, 0x68, 0x65, 0x6c, 0x6c,
      0x02, 0x68, 0x69, 0x64], 21⟩ := by
  have h := sac_encoding sacExample ["fsp-srv"] ["pm:shell", "hid"] rfl rfl
    (by decide) (by decide)
  exact h.trans (by rfl)

/-! ### Shape of the Meta region -/

theorem writeStringRaw_META (x : BinaryWriter) :
    BinaryWriter.writeStringRaw x "META" = .ok (x.write [77, 69, 84, 65]) := rfl

/-- A successful `write_meta` always produces exactly 0x80 bytes, with the
cursor left at 0x80. -/
theorem writeMeta_ok_shape {c : Json} {w : BinaryWriter}
    (h : writeMeta c = .ok w) : w.stream.length = 0x80 ∧ w.pos = 0x80 := by
  unfold writeMeta at h
  obtain ⟨w1, hw1, h⟩ := exBind h
  rw [writeStringRaw_META] at hw1
  injection hw1 with hw1
  subst hw1
  obtain ⟨skg, _, h⟩ := exBind h
  obtain ⟨w2, hw2, h⟩ := exBind h
  obtain ⟨e2, -⟩ := BinaryWriter.writeU32_ok hw2
  subst e2
  obtain ⟨is64, _, h⟩ := exBind h
  obtain ⟨ast, _, h⟩ := exBind h
  obtain ⟨optMem, _, h⟩ := exBind h
  obtain ⟨ddm, _, h⟩ := exBind h
  obtain ⟨aex, _, h⟩ := exBind h
  obtain ⟨pcr, _, h⟩ := exBind h
  obtain ⟨w3, hw3, h⟩ := exBind h
  obtain ⟨e3, -⟩ := BinaryWriter.writeU8_ok hw3
  subst e3
  obtain ⟨mtp, _, h⟩ := exBind h
  obtain ⟨w4, hw4, h⟩ := exBind h
  obtain ⟨e4, -⟩ := BinaryWriter.writeU8_ok hw4
  subst e4
  obtain ⟨dcpu, _, h⟩ := exBind h
  obtain ⟨w5, hw5, h⟩ := exBind h
  obtain ⟨e5, -⟩ := BinaryWriter.writeU8_ok hw5
  subst e5
  obtain ⟨srs, _, h⟩ := exBind h
  obtain ⟨w6, hw6, h⟩ := exBind h
  obtain ⟨e6, -⟩ := BinaryWriter.writeU32_ok hw6
  subst e6
  obtain ⟨ver, _, h⟩ := exBind h
  obtain ⟨w7, hw7, h⟩ := exBind h
  obtain ⟨e7, -⟩ := BinaryWriter.writeU32_ok hw7
  subst e7
  obtain ⟨stack, _, h⟩ := exBind h
  split at h
  case isTrue hstack =>
    obtain ⟨w8, hw8, h⟩ := exBind h
    obtain ⟨e8, -⟩ := BinaryWriter.writeU32_ok hw8
    subst e8
    obtain ⟨name, _, h⟩ := exBind h
    obtain ⟨w9, hw9, h⟩ := exBind h
    have e9 := BinaryWriter.writeStringFixed_ok hw9
    subst e9
    injection h with hfin
    subst hfin
    constructor <;>
      simp only [BinaryWriter.write_length, BinaryWriter.write_pos,
        BinaryWriter.seekRel_def, BinaryWriter.seekAbs_pos,
        BinaryWriter.seekAbs_length, leBytes_length, nameBytes_length,
        List.length_nil, List.length_cons, List.length_replicate] <;> omega
  case isFalse => exact Except.noConfusion h

/-! ### Shape of the whole build -/

/-- A successful build decomposes as the 0x80-byte Meta region (its tail at
0x70 patched with the Aci offset, Aci size, Acid offset and Acid size, in
that order), the Acid region at 0x80, zero padding to the next 16-byte
boundary, and the Aci region. -/
theorem build_ok_shape {c : Json} {out : List Nat} (h : build c = .ok out) :
    ∃ sacW kcW metaW acidW aciW,
      writeSac c = .ok sacW ∧ writeKC c = .ok kcW ∧ writeMeta c = .ok metaW ∧
      writeAcid c sacW kcW = .ok acidW ∧ writeAci c sacW kcW = .ok aciW ∧
      metaW.stream.length = 0x80 ∧
      out = metaW.stream.take 0x70
        ++ ((leBytes 4 (alignUp (0x80 + acidW.stream.length) 16)
            ++ leBytes 4 aciW.stream.length
            ++ leBytes 4 0x80 ++ leBytes 4 acidW.stream.length)
          ++ (acidW.stream
            ++ (List.replicate (alignUp (0x80 + acidW.stream.length) 16
                - (0x80 + acidW.stream.length)) 0
              ++ aciW.stream))) := by
  unfold build at h
  obtain ⟨sacW, hsac, h⟩ := exBind h
  obtain ⟨kcW, hkc, h⟩ := exBind h
  obtain ⟨metaW, hmeta, h⟩ := exBind h
  have hlen := (writeMeta_ok_shape hmeta).1
  refine ⟨sacW, kcW, metaW, ?_⟩
  try simp only [] at h
  have e1 : (⟨[], 0⟩ : BinaryWriter).write metaW.stream =
      ⟨metaW.stream, 0x80⟩ := by
    rw [BinaryWriter.write_append [] _ 0 rfl]
    exact BinaryWriter.eq_of _ _ (by simp) (by simp [hlen])
  rw [e1] at h
  have e2 : (⟨metaW.stream, 0x80⟩ : BinaryWriter).seekAbs
      metaW.stream.length = ⟨metaW.stream, 0x80⟩ := by
    rw [hlen]
    exact BinaryWriter.seekAbs_in _ _ _ (by omega)
  rw [e2] at h
  have e3 : (⟨metaW.stream, 0x80⟩ : BinaryWriter).align 16 =
      ⟨metaW.stream, 0x80⟩ := by
    rw [BinaryWriter.align_eq]
    try simp only []
    rw [show alignUp 0x80 16 = 0x80 by decide]
    exact BinaryWriter.seekAbs_in _ _ _ (by omega)
  rw [e3] at h
  try simp only [] at h
  obtain ⟨acidW, hacid, h⟩ := exBind h
  try simp only [] at h
  rw [BinaryWriter.write_append metaW.stream acidW.stream 0x80 hlen] at h
  have e5 : (⟨metaW.stream ++ acidW.stream, 0x80 + acidW.stream.length⟩ :
      BinaryWriter).align 16 =
      ⟨metaW.stream ++ acidW.stream ++
        List.replicate (alignUp (0x80 + acidW.stream.length) 16
          - (0x80 + acidW.stream.length)) 0,
        alignUp (0x80 + acidW.stream.length) 16⟩ := by
    rw [BinaryWriter.align_eq]
    try simp only []
    rw [BinaryWriter.seekAbs_ext _ _ _ (by
      simp only [List.length_append, hlen]
      exact le_alignUp _ _)]
    exact BinaryWriter.eq_of _ _
      (by simp only [List.length_append, hlen, List.append_assoc]) rfl
  rw [e5] at h
  try simp only [] at h
  obtain ⟨aciW, haci, h⟩ := exBind h
  try simp only [] at h
  have hble : 0x80 + acidW.stream.length ≤
      alignUp (0x80 + acidW.stream.length) 16 := le_alignUp _ _
  have hblen : (metaW.stream ++ acidW.stream ++
      List.replicate (alignUp (0x80 + acidW.stream.length) 16
        - (0x80 + acidW.stream.length)) 0).length =
      alignUp (0x80 + acidW.stream.length) 16 := by
    simp only [List.length_append, List.length_replicate, hlen]
    omega
  rw [BinaryWriter.write_append _ aciW.stream _ hblen] at h
  have e7 : (⟨metaW.stream ++ acidW.stream ++
      List.replicate (alignUp (0x80 + acidW.stream.length) 16
        - (0x80 + acidW.stream.length)) 0 ++ aciW.stream,
      alignUp (0x80 + acidW.stream.length) 16 + aciW.stream.length⟩ :
      BinaryWriter).seekAbs 0x70 =
      ⟨metaW.stream ++ acidW.stream ++
        List.replicate (alignUp (0x80 + acidW.stream.length) 16
          - (0x80 + acidW.stream.length)) 0 ++ aciW.stream, 0x70⟩ := by
    exact BinaryWriter.seekAbs_in _ _ _ (by
      simp only [List.length_append, List.length_replicate, hlen]
      omega)
  rw [e7] at h
  obtain ⟨wa, hwa, h⟩ := exBind h
  obtain ⟨ea, -⟩ := BinaryWriter.writeU32_ok hwa
  subst ea
  obtain ⟨wb, hwb, h⟩ := exBind h
  obtain ⟨eb, -⟩ := BinaryWriter.writeU32_ok hwb
  subst eb
  obtain ⟨wc, hwc, h⟩ := exBind h
  obtain ⟨ec, -⟩ := BinaryWriter.writeU32_ok hwc
  subst ec
  obtain ⟨wd, hwd, h⟩ := exBind h
  obtain ⟨ed, -⟩ := BinaryWriter.writeU32_ok hwd
  subst ed
  injection h with hout
  subst hout
  refine ⟨acidW, aciW, hsac, hkc, hmeta, hacid, haci, hlen, ?_⟩
  rw [BinaryWriter.write_write, BinaryWriter.write_write,
    BinaryWriter.write_write]
  rw [show metaW.stream ++ acidW.stream ++ List.replicate
      (alignUp (0x80 + acidW.stream.length) 16
        - (0x80 + acidW.stream.length)) 0 ++ aciW.stream =
    metaW.stream.take 0x70 ++ (metaW.stream.drop 0x70 ++
      (acidW.stream ++ (List.replicate (alignUp (0x80 + acidW.stream.length) 16
        - (0x80 + acidW.stream.length)) 0 ++ aciW.stream))) from by
    conv_lhs => rw [← List.take_append_drop 0x70 metaW.stream]
    simp only [List.append_assoc]]
  rw [BinaryWriter.write_patch (metaW.stream.take 0x70)
    (metaW.stream.drop 0x70) _ _ 0x70
    (by rw [List.length_take, hlen]; omega)
    (by simp only [List.length_drop, List.length_append, leBytes_length, hlen]
        try decide)]
  try simp only [List.append_assoc]

/-! ### Claim C5: the Meta tail fields -/

/-- C5: after both regions are built, the Meta tail at 0x70 holds four
little-endian 32-bit fields in the order Aci offset, Aci size, Acid offset,
Acid size, and these exactly match the byte ranges the build wrote: the
Acid region's bytes sit at offset 0x80 (the first 16-byte-aligned offset at
or past the 0x80-byte Meta region, since `alignUp 0x80 16 = 0x80`), the Aci
region's bytes run from the first 16-byte-aligned offset at or past Acid's
end to the end of the output. -/
theorem meta_tail_offsets_exact (c : Json) (out : List Nat)
    (h : build c = .ok out) :
    ∃ sacW kcW acidW aciW,
      writeSac c = .ok sacW ∧ writeKC c = .ok kcW ∧
      writeAcid c sacW kcW = .ok acidW ∧ writeAci c sacW kcW = .ok aciW ∧
      (out.drop 0x70).take 16 =
        leBytes 4 (alignUp (0x80 + acidW.stream.length) 16)
        ++ leBytes 4 aciW.stream.length
        ++ leBytes 4 0x80
        ++ leBytes 4 acidW.stream.length ∧
      (out.drop 0x80).take acidW.stream.length = acidW.stream ∧
      out.drop (alignUp (0x80 + acidW.stream.length) 16) = aciW.stream ∧
      out.length = alignUp (0x80 + acidW.stream.length) 16
        + aciW.stream.length ∧
      alignUp 0x80 16 = 0x80 ∧
      alignUp (0x80 + acidW.stream.length) 16 % 16 = 0 := by
  obtain ⟨sacW, kcW, metaW, acidW, aciW, hsac, hkc, hmeta, hacid, haci,
    hlen, hout⟩ := build_ok_shape h
  set T := metaW.stream.take 0x70 with hTdef
  set R := leBytes 4 (alignUp (0x80 + acidW.stream.length) 16)
    ++ leBytes 4 aciW.stream.length ++ leBytes 4 0x80
    ++ leBytes 4 acidW.stream.length with hRdef
  set P := List.replicate (alignUp (0x80 + acidW.stream.length) 16
    - (0x80 + acidW.stream.length)) 0 with hPdef
  have hT : T.length = 0x70 := by
    rw [hTdef, List.length_take, hlen]; omega
  have hR : R.length = 16 := by
    rw [hRdef]; simp [leBytes_length]
  have hP : P.length = alignUp (0x80 + acidW.stream.length) 16
      - (0x80 + acidW.stream.length) := by
    rw [hPdef, List.length_replicate]
  have hble := le_alignUp (0x80 + acidW.stream.length) 16
  refine ⟨sacW, kcW, acidW, aciW, hsac, hkc, hacid, haci, ?_, ?_, ?_, ?_,
    by decide, alignUp_mod16 _⟩
  · rw [hout, ← hT, List.drop_left]
    conv_lhs => rw [show (16 : Nat) = R.length from hR.symm]
    rw [List.take_left, hRdef]
  · have h2 : out = (T ++ R) ++ (acidW.stream ++ (P ++ aciW.stream)) := by
      rw [hout]; simp only [List.append_assoc]
    have hTR : (T ++ R).length = 0x80 := by
      rw [List.length_append, hT, hR]
    rw [h2, ← hTR, List.drop_left]
    exact List.take_left _ _
  · have h3 : out = (T ++ R ++ acidW.stream ++ P) ++ aciW.stream := by
      rw [hout]; simp only [List.append_assoc]
    have h3len : (T ++ R ++ acidW.stream ++ P).length =
        alignUp (0x80 + acidW.stream.length) 16 := by
      simp only [List.length_append, hT, hR, hP]
      omega
    rw [h3, ← h3len, List.drop_left]
  · rw [hout]
    simp only [List.length_append, hT, hR, hP]
    omega

set_option maxRecDepth 10000 in
/-- C5 witness: the decomposition at a complete concrete configuration. -/
theorem meta_tail_offsets_exact_witness :
    ∃ sacW kcW acidW aciW,
      writeSac buildExample = .ok sacW ∧ writeKC buildExample = .ok kcW ∧
      writeAcid buildExample sacW kcW = .ok acidW ∧
      writeAci buildExample sacW kcW = .ok aciW ∧
      (buildExampleOut.drop 0x70).take 16 =
        leBytes 4 (alignUp (0x80 + acidW.stream.length) 16)
        ++ leBytes 4 aciW.stream.length
        ++ leBytes 4 0x80
        ++ leBytes 4 acidW.stream.length ∧
      (buildExampleOut.drop 0x80).take acidW.stream.length = acidW.stream ∧
      buildExampleOut.drop (alignUp (0x80 + acidW.stream.length) 16) =
        aciW.stream ∧
      buildExampleOut.length = alignUp (0x80 + acidW.stream.length) 16
        + aciW.stream.length ∧
      alignUp 0x80 16 = 0x80 ∧
      alignUp (0x80 + acidW.stream.length) 16 % 16 = 0 :=
  meta_tail_offsets_exact buildExample buildExampleOut (by rfl)

/-! ### Shape of the Aci region -/

theorem BinaryWriter.write_append_end (s raw : List Nat) (p : Nat)
    (h : s.length = p) :
    BinaryWriter.write ⟨s, p⟩ raw = ⟨s ++ raw, (s ++ raw).length⟩ := by
  rw [BinaryWriter.write_append s raw p h]
  exact BinaryWriter.eq_of _ _ rfl (by simp [h])

theorem BinaryWriter.seekRel_end (s : List Nat) (p d : Nat)
    (h : s.length = p) :
    BinaryWriter.seekRel ⟨s, p⟩ d =
      ⟨s ++ List.replicate d 0, (s ++ List.replicate d 0).length⟩ := by
  rw [BinaryWriter.seekRel_eq, BinaryWriter.seekAbs_ext _ _ _ (by omega)]
  exact BinaryWriter.eq_of _ _ (by rw [h]; simp) (by simp [h])

theorem BinaryWriter.align_end (s : List Nat) (p n : Nat)
    (h : s.length = p) :
    BinaryWriter.align ⟨s, p⟩ n =
      ⟨s ++ List.replicate (alignUp p n - p) 0,
        (s ++ List.replicate (alignUp p n - p) 0).length⟩ := by
  rw [BinaryWriter.align_eq]
  rw [BinaryWriter.seekAbs_ext _ _ _ (by
    simp only [h]
    exact le_alignUp _ _)]
  exact BinaryWriter.eq_of _ _ (by rw [h])
    (by simp [h]; have := le_alignUp p n; omega)

/-- Characterization of the optional count-prefix write: nothing for an
empty list, a 32-bit count otherwise. -/
theorem countWrite_ok {n : Nat} {s : List Nat} {p : Nat} {w' : BinaryWriter}
    (hp : s.length = p)
    (h : cntWrite ⟨s, p⟩ n = .ok w') :
    w' = ⟨s ++ (if n = 0 then [] else leBytes 4 n),
      (s ++ (if n = 0 then [] else leBytes 4 n)).length⟩ := by
  unfold cntWrite at h
  split at h
  · rename_i hn
    obtain ⟨e, -⟩ := BinaryWriter.writeU32_ok h
    subst e
    rw [BinaryWriter.write_append_end _ _ _ hp]
    rw [if_neg hn]
  · rename_i hn
    injection h with h
    subst h
    rw [if_pos (by omega)]
    exact BinaryWriter.eq_of _ _ (by simp) (by simp [hp])

theorem writeStringRaw_ACI0 (x : BinaryWriter) :
    BinaryWriter.writeStringRaw x "ACI0" = .ok (x.write [65, 67, 73, 48]) := rfl

theorem writeStringRaw_ACID (x : BinaryWriter) :
    BinaryWriter.writeStringRaw x "ACID" = .ok (x.write [65, 67, 73, 68]) := rfl

/-- Characterization of a successful content-owner-id loop starting with
the cursor at the end of the stream: it appends one 64-bit id per entry
(the coerced values), and a single supplied integer id is written as
itself. -/
theorem coiLoop_ok_bytes {l : List Json} {s : List Nat} {w' : BinaryWriter}
    (h : coiLoop ⟨s, s.length⟩ l = .ok w') :
    ∃ vals : List Int, vals.length = l.length ∧
      (∀ v : Int, l = [Json.int v] → vals = [v]) ∧
      w' = ⟨s ++ u64ListBytes vals, (s ++ u64ListBytes vals).length⟩ := by
  induction l generalizing s with
  | nil =>
    refine ⟨[], rfl, by intro v hv; exact absurd hv (by simp), ?_⟩
    unfold coiLoop at h
    injection h with h
    subst h
    simp [u64ListBytes]
  | cons x rest ih =>
    unfold coiLoop at h
    obtain ⟨val, hco, h⟩ := exBind h
    split at h
    case isFalse => exact Except.noConfusion h
    case isTrue hrange =>
      obtain ⟨w1, hw1, h⟩ := exBind h
      obtain ⟨e1, -⟩ := BinaryWriter.writeU64_ok hw1
      subst e1
      rw [BinaryWriter.write_append _ _ _ rfl] at h
      rw [show s.length + (leBytes 8 val.toNat).length =
        (s ++ leBytes 8 val.toNat).length by simp] at h
      obtain ⟨vals, hlen, hsingle, hw'⟩ := ih h
      refine ⟨val :: vals, by simp [hlen], ?_, ?_⟩
      · intro v hv
        injection hv with hx hrest
        subst hx
        subst hrest
        have hvv : v = val := by
          simp only [jsonCoerceInt] at hco
          exact Except.ok.inj hco
        subst hvv
        have : vals = [] := List.length_eq_zero.mp (by simp [hlen])
        rw [this]
      · rw [hw']
        exact BinaryWriter.eq_of _ _
          (by rw [u64ListBytes_cons]; simp [List.append_assoc])
          (by rw [u64ListBytes_cons]; simp [List.append_assoc])

/-- The save-data-owner collect loop only appends to its accumulators. -/
theorem sdoiCollect_ok_len {l : List Json} {acc res : List Int × List Int}
    (h : sdoiCollect acc l = .ok res) :
    res.1.length = acc.1.length + l.length ∧
    res.2.length = acc.2.length + l.length := by
  induction l generalizing acc with
  | nil =>
    unfold sdoiCollect at h
    injection h with h
    subst h
    simp
  | cons x rest ih =>
    obtain ⟨accs, ids⟩ := acc
    unfold sdoiCollect at h
    cases x
    case obj skvs =>
      simp only at h
      obtain ⟨a, _, h⟩ := exBind h
      obtain ⟨i, _, h⟩ := exBind h
      have := ih h
      simp only [List.length_append, List.length_cons, List.length_nil] at this ⊢
      omega
    all_goals exact Except.noConfusion h

/-- A successful accessibility loop appends one byte per accessibility. -/
theorem sdoiAccLoop_bytes {l : List Int} {s : List Nat} {w' : BinaryWriter}
    (h : sdoiAccLoop ⟨s, s.length⟩ l = .ok w') :
    w' = ⟨s ++ l.map Int.toNat, (s ++ l.map Int.toNat).length⟩ := by
  induction l generalizing s with
  | nil =>
    unfold sdoiAccLoop at h
    injection h with h
    subst h
    simp
  | cons a rest ih =>
    unfold sdoiAccLoop at h
    obtain ⟨w1, hw1, h⟩ := exBind h
    obtain ⟨e1, hb⟩ := BinaryWriter.writeU8_ok hw1
    subst e1
    rw [leBytes_one _ hb, BinaryWriter.write_append _ _ _ rfl] at h
    rw [show s.length + [a.toNat].length = (s ++ [a.toNat]).length by simp] at h
    have := ih h
    rw [this]
    exact BinaryWriter.eq_of _ _ (by simp) (by simp)

/-- A successful id loop appends one 64-bit id per entry. -/
theorem sdoiIdLoop_bytes {l : List Int} {s : List Nat} {w' : BinaryWriter}
    (h : sdoiIdLoop ⟨s, s.length⟩ l = .ok w') :
    w' = ⟨s ++ u64ListBytes l, (s ++ u64ListBytes l).length⟩ := by
  induction l generalizing s with
  | nil =>
    unfold sdoiIdLoop at h
    injection h with h
    subst h
    simp [u64ListBytes]
  | cons a rest ih =>
    unfold sdoiIdLoop at h
    obtain ⟨w1, hw1, h⟩ := exBind h
    obtain ⟨e1, -⟩ := BinaryWriter.writeU64_ok hw1
    subst e1
    rw [BinaryWriter.write_append _ _ _ rfl] at h
    rw [show s.length + (leBytes 8 a.toNat).length =
      (s ++ leBytes 8 a.toNat).length by simp] at h
    have := ih h
    rw [this]
    exact BinaryWriter.eq_of _ _
      (by rw [u64ListBytes_cons]; simp [List.append_assoc])
      (by rw [u64ListBytes_cons]; simp [List.append_assoc])

/-- Characterization of a successful `write_aci`: the produced bytes are
`aciStream` of the extracted field values. -/
theorem writeAci_ok_shape {c : Json} {sacW kcW w : BinaryWriter}
    (h : writeAci c sacW kcW = .ok w) :
    ∃ (fkvs : List (String × Json)) (coiJson sdoiJson : List Json)
      (progId perms : Int) (coiVals accs ids : List Int),
      jsonReadDict c ["filesystem_access"] none = .ok fkvs ∧
      jsonReadList (.obj fkvs) ["content_owner_ids"] (some (.arr [])) =
        .ok coiJson ∧
      jsonReadList (.obj fkvs) ["save_data_owner_ids"] (some (.arr [])) =
        .ok sdoiJson ∧
      coiVals.length = coiJson.length ∧
      (∀ v : Int, coiJson = [Json.int v] → coiVals = [v]) ∧
      accs.length = sdoiJson.length ∧ ids.length = sdoiJson.length ∧
      w.stream = aciStream progId perms coiVals accs ids
        sacW.stream kcW.stream := by
  unfold writeAci at h
  simp only [] at h
  obtain ⟨fkvs, hfs, h⟩ := exBind h
  obtain ⟨coiJson, hcoi, h⟩ := exBind h
  obtain ⟨sdoiJson, hsdoi, h⟩ := exBind h
  obtain ⟨perms, hperms, h⟩ := exBind h
  obtain ⟨w1, hw1, h⟩ := exBind h
  rw [writeStringRaw_ACI0, BinaryWriter.write_append_end [] _ 0 rfl,
    List.nil_append] at hw1
  injection hw1 with hw1
  subst hw1
  try simp only [] at h
  rw [BinaryWriter.seekRel_end _ _ _ rfl] at h
  obtain ⟨progId, hprog, h⟩ := exBind h
  obtain ⟨w2, hw2, h⟩ := exBind h
  obtain ⟨e2, -⟩ := BinaryWriter.writeU64_ok hw2
  subst e2
  try simp only [] at h
  rw [BinaryWriter.write_append_end _ _ _ rfl] at h
  rw [BinaryWriter.seekRel_end _ _ _ rfl] at h
  rw [BinaryWriter.seekRel_end _ _ _ rfl] at h
  try simp only [] at h
  set S1 := [65, 67, 73, 48] ++ List.replicate 12 0 ++ leBytes 8 progId.toNat ++
    List.replicate 8 0 ++ List.replicate 32 0 with hS1
  obtain ⟨w3, hw3, h⟩ := exBind h
  obtain ⟨e3, -⟩ := BinaryWriter.writeU32_ok hw3
  subst e3
  try simp only [] at h
  rw [BinaryWriter.write_append_end _ _ _ rfl] at h
  obtain ⟨w4, hw4, h⟩ := exBind h
  obtain ⟨e4, -⟩ := BinaryWriter.writeU64_ok hw4
  subst e4
  try simp only [] at h
  rw [BinaryWriter.write_append_end _ _ _ rfl] at h
  rw [BinaryWriter.seekRel_end _ _ _ rfl] at h
  try simp only [] at h
  set HDR := S1 ++ leBytes 4 1 ++ leBytes 8 perms.toNat with hHDR
  set S2 := HDR ++ List.replicate 16 0 with hS2
  obtain ⟨w5, hw5, h⟩ := exBind h
  have e5 := countWrite_ok rfl hw5
  subst e5
  try simp only [] at h
  set cnt1 := (if coiJson.length = 0 then [] else leBytes 4 coiJson.length)
    with hcnt1
  set S3 := S2 ++ cnt1 with hS3
  obtain ⟨w6, hw6, h⟩ := exBind h
  obtain ⟨coiVals, hclen, hcsingle, e6⟩ := coiLoop_ok_bytes hw6
  subst e6
  try simp only [] at h
  set S4 := S3 ++ u64ListBytes coiVals with hS4
  obtain ⟨w7, hw7, h⟩ := exBind h
  have e7 := countWrite_ok rfl hw7
  subst e7
  try simp only [] at h
  set cnt2 := (if sdoiJson.length = 0 then [] else leBytes 4 sdoiJson.length)
    with hcnt2
  set S5 := S4 ++ cnt2 with hS5
  obtain ⟨sdoi, hcollect, h⟩ := exBind h
  obtain ⟨haccs, hids⟩ := sdoiCollect_ok_len hcollect
  simp only [List.length_nil, Nat.zero_add] at haccs hids
  obtain ⟨w8, hw8, h⟩ := exBind h
  have e8 := sdoiAccLoop_bytes hw8
  subst e8
  try simp only [] at h
  set S6 := S5 ++ sdoi.1.map Int.toNat with hS6
  rw [BinaryWriter.align_end _ _ _ rfl] at h
  set P1 := alignUp S6.length 4 - S6.length with hP1
  set S7 := S6 ++ List.replicate P1 0 with hS7
  obtain ⟨w9, hw9, h⟩ := exBind h
  have e9 := sdoiIdLoop_bytes hw9
  subst e9
  try simp only [] at h
  set S8 := S7 ++ u64ListBytes sdoi.2 with hS8
  obtain ⟨wA, hwA, h⟩ := exBind h
  obtain ⟨eA, -⟩ := BinaryWriter.writeU32_ok hwA
  subst eA
  try simp only [] at h
  obtain ⟨wB, hwB, h⟩ := exBind h
  obtain ⟨eB, -⟩ := BinaryWriter.writeU32_ok hwB
  subst eB
  try simp only [] at h
  obtain ⟨wC, hwC, h⟩ := exBind h
  obtain ⟨eC, -⟩ := BinaryWriter.writeU32_ok hwC
  subst eC
  try simp only [] at h
  obtain ⟨wD, hwD, h⟩ := exBind h
  obtain ⟨eD, -⟩ := BinaryWriter.writeU32_ok hwD
  subst eD
  try simp only [] at h
  have hsk1 : BinaryWriter.seekAbs ⟨S8, S8.length⟩ (S1.length + 12) =
      ⟨S8, S1.length + 12⟩ :=
    BinaryWriter.seekAbs_in _ _ _ (by
      rw [hS8, hS7, hS6, hS5, hS4, hS3, hS2, hHDR]
      simp only [List.length_append, List.length_replicate, leBytes_length]
      omega)
  rw [hsk1] at h
  rw [BinaryWriter.write_write, BinaryWriter.write_write,
    BinaryWriter.write_write] at h
  set F := leBytes 4 (S2.length - S1.length) ++ (leBytes 4 (S4.length - S2.length) ++
    (leBytes 4 (S4.length - S1.length) ++ leBytes 4 (S8.length - S4.length))) with hF
  have hFlen : F.length = 16 := by
    rw [hF]; simp [leBytes_length]
  set C0 := cnt1 ++ u64ListBytes coiVals ++ cnt2 ++ sdoi.1.map Int.toNat ++
    List.replicate P1 0 ++ u64ListBytes sdoi.2 with hC0
  have hre : S8 = HDR ++ (List.replicate 16 0 ++ C0) := by
    rw [hS8, hS7, hS6, hS5, hS4, hS3, hS2, hC0]
    simp [List.append_assoc]
  have hpatch : BinaryWriter.write ⟨S8, S1.length + 12⟩ F =
      ⟨HDR ++ (F ++ C0), S1.length + 28⟩ := by
    rw [hre, BinaryWriter.write_patch HDR (List.replicate 16 0) C0 F _
      (by simp only [hHDR, List.length_append, leBytes_length]; try omega)
      (by simp [hFlen])]
    exact BinaryWriter.eq_of _ _ rfl (by rw [hFlen])
  rw [hpatch] at h
  set S9 := HDR ++ (F ++ C0) with hS9
  have hlen89 : S9.length = S8.length := by
    rw [hS9, hre]
    simp only [List.length_append, List.length_replicate]
    rw [hFlen]
  have h1le8 : S1.length + 28 ≤ S8.length := by
    rw [hre]
    simp only [hHDR, List.length_append, List.length_replicate, leBytes_length]
    omega
  have hT : S1.length + (S8.length - S1.length) = S9.length := by omega
  rw [hT] at h
  have hsk2 : BinaryWriter.seekAbs ⟨S9, S1.length + 28⟩ S9.length =
      ⟨S9, S9.length⟩ :=
    BinaryWriter.seekAbs_in _ _ _ le_rfl
  rw [hsk2] at h
  rw [BinaryWriter.align_end _ _ _ rfl] at h
  set P2 := alignUp S9.length 16 - S9.length with hP2
  set S10 := S9 ++ List.replicate P2 0 with hS10
  rw [BinaryWriter.write_append_end _ _ _ rfl] at h
  set S11 := S10 ++ sacW.stream with hS11
  rw [BinaryWriter.align_end _ _ _ rfl] at h
  set P3 := alignUp S11.length 16 - S11.length with hP3
  set S12 := S11 ++ List.replicate P3 0 with hS12
  rw [BinaryWriter.write_append_end _ _ _ rfl] at h
  set S13 := S12 ++ kcW.stream with hS13
  try simp only [] at h
  have hsk3 : BinaryWriter.seekAbs ⟨S13, S13.length⟩ 32 = ⟨S13, 32⟩ :=
    BinaryWriter.seekAbs_in _ _ _ (by
      rw [hS13, hS12, hS11, hS10, hS9, hHDR, hS1]
      simp only [List.length_append, List.length_replicate, leBytes_length]
      omega)
  rw [hsk3] at h
  obtain ⟨wE, hwE, h⟩ := exBind h
  obtain ⟨eE, -⟩ := BinaryWriter.writeU32_ok hwE
  subst eE
  try simp only [] at h
  obtain ⟨wF, hwF, h⟩ := exBind h
  obtain ⟨eF, -⟩ := BinaryWriter.writeU32_ok hwF
  subst eF
  try simp only [] at h
  obtain ⟨wG, hwG, h⟩ := exBind h
  obtain ⟨eG, -⟩ := BinaryWriter.writeU32_ok hwG
  subst eG
  try simp only [] at h
  obtain ⟨wH, hwH, h⟩ := exBind h
  obtain ⟨eH, -⟩ := BinaryWriter.writeU32_ok hwH
  subst eH
  try simp only [] at h
  obtain ⟨wI, hwI, h⟩ := exBind h
  obtain ⟨eI, -⟩ := BinaryWriter.writeU32_ok hwI
  subst eI
  try simp only [] at h
  obtain ⟨wJ, hwJ, h⟩ := exBind h
  obtain ⟨eJ, -⟩ := BinaryWriter.writeU32_ok hwJ
  subst eJ
  try simp only [] at h
  rw [BinaryWriter.write_write, BinaryWriter.write_write, BinaryWriter.write_write,
    BinaryWriter.write_write, BinaryWriter.write_write] at h
  set G := leBytes 4 S1.length ++ (leBytes 4 (S8.length - S1.length) ++
    (leBytes 4 S10.length ++ (leBytes 4 sacW.stream.length ++
    (leBytes 4 S12.length ++ leBytes 4 kcW.stream.length)))) with hG
  have hGlen : G.length = 24 := by
    rw [hG]; simp [leBytes_length]
  set AV := [65, 67, 73, 48] ++ List.replicate 12 0 ++ leBytes 8 progId.toNat ++
    List.replicate 8 0 with hAV
  set CV := List.replicate 8 0 ++ leBytes 4 1 ++ leBytes 8 perms.toNat ++ F ++
    C0 ++ List.replicate P2 0 ++ sacW.stream ++ List.replicate P3 0 ++
    kcW.stream with hCV
  have hrep32 : List.replicate 32 (0:ℕ) = List.replicate 24 0 ++ List.replicate 8 0 := by
    decide
  have hre2 : S13 = AV ++ (List.replicate 24 0 ++ CV) := by
    rw [hS13, hS12, hS11, hS10, hS9, hHDR, hS1, hAV, hCV, hrep32]
    simp [List.append_assoc]
  have hpatch2 : BinaryWriter.write ⟨S13, 32⟩ G = ⟨AV ++ (G ++ CV), 56⟩ := by
    rw [hre2, BinaryWriter.write_patch AV (List.replicate 24 0) CV G _
      (by rw [hAV]; simp [leBytes_length])
      (by simp [hGlen])]
    exact BinaryWriter.eq_of _ _ rfl (by rw [hGlen])
  rw [hpatch2] at h
  injection h with h
  subst h
  refine ⟨fkvs, coiJson, sdoiJson, progId, perms, coiVals, sdoi.1, sdoi.2,
    hfs, hcoi, hsdoi, hclen, hcsingle, haccs, hids, ?_⟩
  show AV ++ (G ++ CV) = aciStream progId perms coiVals sdoi.1 sdoi.2
    sacW.stream kcW.stream
  clear_value S1 HDR S2 cnt1 S3 S4 cnt2 S5 S6 P1 S7 S8 F C0 S9 P2 S10 S11 P3
    S12 S13 G AV CV
  -- length bookkeeping
  have hL1 : S1.length = 0x40 := by
    rw [hS1, hAV]
    simp [leBytes_length]
  have hL2 : S2.length = 0x5c := by
    rw [hS2, hHDR]
    simp only [List.length_append, List.length_replicate, leBytes_length]
    omega
  have hL4 : S4.length = 0x5c + (cnt1 ++ u64ListBytes coiVals).length := by
    rw [hS4, hS3]
    simp only [List.length_append]
    omega
  have hL6 : S6.length = 0x5c + (cnt1 ++ u64ListBytes coiVals).length +
      cnt2.length + sdoi.1.length := by
    have e1 : (cnt1 ++ u64ListBytes coiVals).length =
        cnt1.length + (u64ListBytes coiVals).length := by simp
    rw [hS6, hS5]
    simp only [List.length_append, List.length_map]
    omega
  have r5 : S6.length + P1 + (u64ListBytes sdoi.2).length = S8.length := by
    rw [hS8, hS7]
    simp only [List.length_append, List.length_replicate]
    try omega
  have hl10 : S10.length = S9.length + P2 := by
    rw [hS10]; simp
  have hl11 : S11.length = S10.length + sacW.stream.length := by
    rw [hS11]; simp
  have hl12 : S12.length = S11.length + P3 := by
    rw [hS12]; simp
  have hle9 : S9.length ≤ alignUp S9.length 16 := le_alignUp _ _
  have hle11 : S11.length ≤ alignUp S11.length 16 := le_alignUp _ _
  have rSac : alignUp S8.length 16 = S10.length := by
    rw [← hlen89]
    omega
  have rKc : alignUp (S10.length + sacW.stream.length) 16 = S12.length := by
    rw [← hl11]
    omega
  have rP2 : S10.length - S8.length = P2 := by omega
  have rP3 : S12.length - (S10.length + sacW.stream.length) = P3 := by
    rw [← hl11]
    omega
  have rq0 : cnt1 = (if coiVals.length = 0 then [] else
      leBytes 4 coiVals.length) := by
    rw [hcnt1, hclen]
  have rq0b : cnt2 = (if sdoi.1.length = 0 then [] else
      leBytes 4 sdoi.1.length) := by
    rw [hcnt2, haccs]
  have rq1 : S2.length - S1.length = 0x1c := by omega
  have rq2 : S4.length - S2.length = (cnt1 ++ u64ListBytes coiVals).length := by
    omega
  have rq3 : S4.length - S1.length = 0x1c + (cnt1 ++ u64ListBytes coiVals).length := by
    omega
  have rq4 : S8.length - S4.length =
      S8.length - (0x5c + (cnt1 ++ u64ListBytes coiVals).length) := by omega
  rw [hAV, hCV, hG, hF, hC0]
  simp only [aciStream]
  rw [← rq0, ← rq0b, ← hL6, ← hP1, r5, rSac, rKc, rP2, rP3, rq1, rq2, rq3, rq4,
    hL1]
  simp [List.append_assoc]

/-- Decomposition of `aciStream` around the content-owner-id size field
(the 4 bytes at 0x50) and the content-owner-id sub-table (at 0x5c). -/
theorem aciStream_split (progId perms : Int) (coiVals accs ids : List Int)
    (sac kc : List Nat) :
    ∃ X Y R : List Nat,
      X.length = 0x50 ∧ Y.length = 8 ∧
      aciStream progId perms coiVals accs ids sac kc =
        X ++ (leBytes 4 ((if coiVals.length = 0 then [] else
            leBytes 4 coiVals.length) ++ u64ListBytes coiVals).length ++
          (Y ++ (((if coiVals.length = 0 then [] else
            leBytes 4 coiVals.length) ++ u64ListBytes coiVals) ++ R))) := by
  simp only [aciStream]
  set CB := (if coiVals.length = 0 then [] else leBytes 4 coiVals.length) ++
    u64ListBytes coiVals with hCB
  set CNT := (if accs.length = 0 then ([] : List ℕ) else
    leBytes 4 accs.length) with hCNT
  set PRE := 0x5c + CB.length + CNT.length + accs.length with hPRE
  set PAD := alignUp PRE 4 - PRE with hPAD
  set FE := PRE + PAD + (u64ListBytes ids).length with hFE
  set SO := alignUp FE 16 with hSO
  set KO := alignUp (SO + sac.length) 16 with hKO
  refine ⟨[65, 67, 73, 48] ++ List.replicate 0xc 0 ++ leBytes 8 progId.toNat ++
      List.replicate 8 0 ++ leBytes 4 0x40 ++ leBytes 4 (FE - 0x40) ++
      leBytes 4 SO ++ leBytes 4 sac.length ++ leBytes 4 KO ++
      leBytes 4 kc.length ++ List.replicate 8 0 ++ leBytes 4 1 ++
      leBytes 8 perms.toNat ++ leBytes 4 0x1c,
    leBytes 4 (0x1c + CB.length) ++ leBytes 4 (FE - (0x5c + CB.length)),
    CNT ++ accs.map (fun a => a.toNat) ++ List.replicate PAD 0 ++
      u64ListBytes ids ++ List.replicate (SO - FE) 0 ++ sac ++
      List.replicate (KO - (SO + sac.length)) 0 ++ kc, ?_, ?_, ?_⟩
  · simp [leBytes_length]
  · simp [leBytes_length]
  · simp [List.append_assoc]

/-- The total Aci size is the capability table offset (a multiple of 16)
plus the capability table size. -/
theorem aciStream_length_mod16 (progId perms : Int)
    (coiVals accs ids : List Int) (sac kc : List Nat) :
    (aciStream progId perms coiVals accs ids sac kc).length % 16 =
      kc.length % 16 := by
  simp only [aciStream]
  set CB := (if coiVals.length = 0 then [] else leBytes 4 coiVals.length) ++
    u64ListBytes coiVals with hCB
  set CNT := (if accs.length = 0 then ([] : List ℕ) else
    leBytes 4 accs.length) with hCNT
  set PRE := 0x5c + CB.length + CNT.length + accs.length with hPRE
  set PAD := alignUp PRE 4 - PRE with hPAD
  set FE := PRE + PAD + (u64ListBytes ids).length with hFE
  set SO := alignUp FE 16 with hSO
  set KO := alignUp (SO + sac.length) 16 with hKO
  have h2 := le_alignUp FE 16
  have h3 := le_alignUp (SO + sac.length) 16
  have h4 := alignUp_mod16 FE
  have h5 := alignUp_mod16 (SO + sac.length)
  rw [← hSO] at h2 h4
  rw [← hKO] at h3 h5
  clear_value CB CNT PRE PAD FE SO KO
  simp only [List.length_append, List.length_replicate, leBytes_length,
    List.length_map, List.length_cons, List.length_nil]
  omega

/-- C9: in the Aci filesystem-access header, the content-owner-id sub-table
(at 0x5c) is empty, with a recorded size (at 0x50) of 0, when
`content_owner_ids` is `[]` (the count prefix is omitted entirely), and for a
single integer id it is a 4-byte count of 1 followed by the 8-byte id
(12 bytes); the recorded size always equals the number of sub-table bytes
written. -/
theorem coi_serialization {c : Json} {sacW kcW w : BinaryWriter}
    (h : writeAci c sacW kcW = .ok w) :
    ∃ (fkvs : List (String × Json)) (coiJson : List Json) (coiB : List Nat),
      jsonReadDict c ["filesystem_access"] none = .ok fkvs ∧
      jsonReadList (.obj fkvs) ["content_owner_ids"] (some (.arr [])) =
        .ok coiJson ∧
      (w.stream.drop 0x50).take 4 = leBytes 4 coiB.length ∧
      (w.stream.drop 0x5c).take coiB.length = coiB ∧
      (coiJson = [] → coiB = []) ∧
      (∀ v : Int, coiJson = [Json.int v] →
        coiB = leBytes 4 1 ++ leBytes 8 v.toNat) := by
  obtain ⟨fkvs, coiJson, sdoiJson, progId, perms, coiVals, accs, ids,
    hfs, hcoi, hsdoi, hclen, hcsingle, haccs, hids, hstream⟩ :=
    writeAci_ok_shape h
  obtain ⟨X, Y, R, hX, hY, hsplit⟩ :=
    aciStream_split progId perms coiVals accs ids sacW.stream kcW.stream
  refine ⟨fkvs, coiJson,
    (if coiVals.length = 0 then [] else leBytes 4 coiVals.length) ++
      u64ListBytes coiVals, hfs, hcoi, ?_, ?_, ?_, ?_⟩
  · rw [hstream, hsplit, ← hX, List.drop_left]
    have ht := List.take_left
      (leBytes 4 ((if coiVals.length = 0 then [] else
        leBytes 4 coiVals.length) ++ u64ListBytes coiVals).length)
      (Y ++ (((if coiVals.length = 0 then [] else
        leBytes 4 coiVals.length) ++ u64ListBytes coiVals) ++ R))
    rw [leBytes_length] at ht
    exact ht
  · rw [hstream]
    have hre : aciStream progId perms coiVals accs ids
        sacW.stream kcW.stream =
        (X ++ (leBytes 4 ((if coiVals.length = 0 then [] else
          leBytes 4 coiVals.length) ++ u64ListBytes coiVals).length ++ Y)) ++
        (((if coiVals.length = 0 then [] else
          leBytes 4 coiVals.length) ++ u64ListBytes coiVals) ++ R) := by
      rw [hsplit]
      simp [List.append_assoc]
    have hlen : (X ++ (leBytes 4 ((if coiVals.length = 0 then [] else
        leBytes 4 coiVals.length) ++ u64ListBytes coiVals).length ++ Y)).length =
        0x5c := by
      simp only [List.length_append, leBytes_length, hX, hY]
    rw [hre, ← hlen, List.drop_left]
    exact List.take_left _ _
  · intro h0
    have h1 : coiVals.length = 0 := by
      rw [hclen, h0]
      rfl
    have h2 : coiVals = [] := List.length_eq_zero.mp h1
    simp [h2, u64ListBytes]
  · intro v hv
    have h1 : coiVals = [v] := hcsingle v hv
    rw [h1]
    simp [u64ListBytes]

/-- A minimal configuration for `write_aci` carrying a single
content-owner id. -/
def aciCfgSingle : Json := .obj [
  ("program_id", .int 7),
  ("filesystem_access", .obj [
    ("permissions", .int 3),
    ("content_owner_ids", .arr [.int 0x0100000000000001])])]

/-- The writer `write_aci` produces for `aciCfgSingle` with empty service
and capability tables. -/
def aciSingleOut : BinaryWriter :=
  ((writeAci aciCfgSingle ⟨[], 0⟩ ⟨[], 0⟩).toOption).getD ⟨[], 0⟩

set_option maxRecDepth 10000 in
/-- C9 witness: the serialization facts at a concrete configuration with a
single content-owner id. -/
theorem coi_serialization_witness :
    writeAci aciCfgSingle ⟨[], 0⟩ ⟨[], 0⟩ = .ok aciSingleOut ∧
    ∃ (fkvs : List (String × Json)) (coiJson : List Json) (coiB : List Nat),
      jsonReadDict aciCfgSingle ["filesystem_access"] none = .ok fkvs ∧
      jsonReadList (.obj fkvs) ["content_owner_ids"] (some (.arr [])) =
        .ok coiJson ∧
      (aciSingleOut.stream.drop 0x50).take 4 = leBytes 4 coiB.length ∧
      (aciSingleOut.stream.drop 0x5c).take coiB.length = coiB ∧
      (coiJson = [] → coiB = []) ∧
      (∀ v : Int, coiJson = [Json.int v] →
        coiB = leBytes 4 1 ++ leBytes 8 v.toNat) :=
  ⟨rfl, @coi_serialization aciCfgSingle ⟨[], 0⟩ ⟨[], 0⟩ aciSingleOut rfl⟩

set_option maxRecDepth 10000 in
/-- C4 counterexample: `build` succeeds on a complete valid configuration
(one kernel capability, so the capability table is 4 bytes) and produces an
output whose length beyond the 0x80-byte Meta base is not a multiple of
0x10: nothing pads the file after the final Aci region, whose own tail is
the unpadded capability table. -/
theorem build_tail_residue_example :
    build buildExample = .ok buildExampleOut ∧
    (buildExampleOut.length - 0x80) % 0x10 ≠ 0 :=
  ⟨rfl, by decide⟩

/-- C4 (amended): for every successful build, the output length beyond the
0x80-byte Meta base is congruent modulo 0x10 to the size of the kernel
capability table (so it is a multiple of 0x10 exactly when the capability
table is, not in general): everything before the Aci region is 16-byte
aligned, and within Aci everything before its trailing capability table is
16-byte aligned too. -/
theorem build_tail_mod16 {c : Json} {out : List Nat}
    (h : build c = .ok out) :
    ∃ kcW, writeKC c = .ok kcW ∧
      (out.length - 0x80) % 0x10 = kcW.stream.length % 0x10 := by
  obtain ⟨sacW, kcW, metaW, acidW, aciW, hsac, hkc, hmeta, hacid, haci,
    hmlen, hout⟩ := build_ok_shape h
  refine ⟨kcW, hkc, ?_⟩
  obtain ⟨fkvs, coiJson, sdoiJson, progId, perms, coiVals, accs, ids,
    -, -, -, -, -, -, -, hstream⟩ := writeAci_ok_shape haci
  have haci16 : aciW.stream.length % 16 = kcW.stream.length % 16 := by
    rw [hstream]
    exact aciStream_length_mod16 _ _ _ _ _ _ _
  have hA := le_alignUp (0x80 + acidW.stream.length) 16
  have hAm := alignUp_mod16 (0x80 + acidW.stream.length)
  rw [hout]
  simp only [List.length_append, List.length_take, List.length_replicate,
    leBytes_length, hmlen]
  omega

set_option maxRecDepth 10000 in
/-- C4 witness: the congruence at the complete concrete configuration. -/
theorem build_tail_mod16_witness :
    ∃ kcW, writeKC buildExample = .ok kcW ∧
      (buildExampleOut.length - 0x80) % 0x10 = kcW.stream.length % 0x10 :=
  build_tail_mod16 (by rfl)

/-- Characterization of a successful `write_acid`: the produced bytes are
`acidStream` of the extracted field values, which never include the
configured owner-id lists. -/
theorem writeAcid_ok_shape {c : Json} {sacW kcW w : BinaryWriter}
    (h : writeAcid c sacW kcW = .ok w) :
    ∃ (isRetail unq : Bool) (pool idMin idMax : Int)
      (fkvs : List (String × Json)) (perms : Int),
      jsonReadBool c ["is_retail"] none = .ok isRetail ∧
      jsonReadDict c ["filesystem_access"] none = .ok fkvs ∧
      jsonReadU64 (.obj fkvs) ["permissions"] none = .ok perms ∧
      w.stream = acidStream
        (((if isRetail then 1 else 0) ||| (if unq then 2 else 0)) |||
          (pool.toNat <<< 2))
        idMin idMax perms sacW.stream kcW.stream := by
  unfold writeAcid at h
  simp only [] at h
  obtain ⟨w1, hw1, h⟩ := exBind h
  rw [BinaryWriter.write_write, writeStringRaw_ACID, BinaryWriter.write_write,
    BinaryWriter.write_append_end [] _ 0 rfl, List.nil_append] at hw1
  injection hw1 with hw1
  subst hw1
  try simp only [] at h
  rw [BinaryWriter.seekRel_end _ _ _ rfl] at h
  rw [BinaryWriter.seekRel_end _ _ _ rfl] at h
  obtain ⟨isRetail, hret, h⟩ := exBind h
  obtain ⟨unq, hunq, h⟩ := exBind h
  obtain ⟨pool, hpool, h⟩ := exBind h
  obtain ⟨w2, hw2, h⟩ := exBind h
  obtain ⟨e2, -⟩ := BinaryWriter.writeU32_ok hw2
  subst e2
  try simp only [] at h
  rw [BinaryWriter.write_append_end _ _ _ rfl] at h
  set FL := ((if isRetail then 1 else 0) ||| (if unq then 2 else 0)) |||
    (pool.toNat <<< 2) with hFL
  set S1 := List.replicate 0x100 0 ++ List.replicate 0x100 0 ++
    [65, 67, 73, 68] ++ List.replicate 4 0 ++ List.replicate 4 0 ++
    leBytes 4 FL with hS1
  obtain ⟨idMin, hmin, h⟩ := exBind h
  obtain ⟨idMax, hmax, h⟩ := exBind h
  obtain ⟨w3, hw3, h⟩ := exBind h
  obtain ⟨e3, -⟩ := BinaryWriter.writeU64_ok hw3
  subst e3
  try simp only [] at h
  rw [BinaryWriter.write_append_end _ _ _ rfl] at h
  obtain ⟨w4, hw4, h⟩ := exBind h
  obtain ⟨e4, -⟩ := BinaryWriter.writeU64_ok hw4
  subst e4
  try simp only [] at h
  rw [BinaryWriter.write_append_end _ _ _ rfl] at h
  rw [BinaryWriter.seekRel_end _ _ _ rfl] at h
  try simp only [] at h
  set S2 := S1 ++ leBytes 8 idMin.toNat ++ leBytes 8 idMax.toNat ++
    List.replicate 32 0 with hS2
  obtain ⟨fkvs, hfs, h⟩ := exBind h
  obtain ⟨perms, hperms, h⟩ := exBind h
  obtain ⟨wA, hwA, h⟩ := exBind h
  obtain ⟨eA, hbA⟩ := BinaryWriter.writeU8_ok hwA
  subst eA
  try simp only [] at h
  rw [leBytes_one 1 (by omega), BinaryWriter.write_append_end _ _ _ rfl] at h
  obtain ⟨wB, hwB, h⟩ := exBind h
  obtain ⟨eB, hbB⟩ := BinaryWriter.writeU8_ok hwB
  subst eB
  try simp only [] at h
  rw [leBytes_one 0 (by omega), BinaryWriter.write_append_end _ _ _ rfl] at h
  obtain ⟨wC, hwC, h⟩ := exBind h
  obtain ⟨eC, hbC⟩ := BinaryWriter.writeU8_ok hwC
  subst eC
  try simp only [] at h
  rw [leBytes_one 0 (by omega), BinaryWriter.write_append_end _ _ _ rfl] at h
  have hskA : BinaryWriter.seekAbs
      ⟨S2 ++ [1] ++ [0] ++ [0], (S2 ++ [1] ++ [0] ++ [0]).length⟩
      (S2.length + 4) =
      ⟨S2 ++ [1] ++ [0] ++ [0] ++ [0],
        (S2 ++ [1] ++ [0] ++ [0] ++ [0]).length⟩ := by
    have hc : S2.length + 4 - (S2 ++ [1] ++ [0] ++ [0]).length = 1 := by
      simp only [List.length_append, List.length_cons, List.length_nil]
      omega
    rw [BinaryWriter.seekAbs_ext _ _ _ (by
      simp only [List.length_append, List.length_cons, List.length_nil]
      omega)]
    refine BinaryWriter.eq_of _ _ ?_ (by
      simp only [List.length_append, List.length_cons, List.length_nil]
      try omega)
    simp only []
    rw [hc, List.replicate_one]
  rw [hskA] at h
  obtain ⟨wD, hwD, h⟩ := exBind h
  obtain ⟨eD, -⟩ := BinaryWriter.writeU64_ok hwD
  subst eD
  try simp only [] at h
  rw [BinaryWriter.write_append_end _ _ _ rfl] at h
  obtain ⟨wE, hwE, h⟩ := exBind h
  obtain ⟨eE, -⟩ := BinaryWriter.writeU64_ok hwE
  subst eE
  try simp only [] at h
  rw [BinaryWriter.write_append_end _ _ _ rfl] at h
  obtain ⟨wF, hwF, h⟩ := exBind h
  obtain ⟨eF, -⟩ := BinaryWriter.writeU64_ok hwF
  subst eF
  try simp only [] at h
  rw [BinaryWriter.write_append_end _ _ _ rfl] at h
  obtain ⟨wG, hwG, h⟩ := exBind h
  obtain ⟨eG, -⟩ := BinaryWriter.writeU64_ok hwG
  subst eG
  try simp only [] at h
  rw [BinaryWriter.write_append_end _ _ _ rfl] at h
  obtain ⟨wH, hwH, h⟩ := exBind h
  obtain ⟨eH, -⟩ := BinaryWriter.writeU64_ok hwH
  subst eH
  try simp only [] at h
  rw [BinaryWriter.write_append_end _ _ _ rfl] at h
  set S3 := S2 ++ [1] ++ [0] ++ [0] ++ [0] ++ leBytes 8 perms.toNat ++
    leBytes 8 0 ++ leBytes 8 0 ++ leBytes 8 0 ++ leBytes 8 0 with hS3
  rw [BinaryWriter.align_end _ _ _ rfl] at h
  set P1 := alignUp S3.length 16 - S3.length with hP1
  set S4 := S3 ++ List.replicate P1 0 with hS4
  try simp only [] at h
  have hsk1 : BinaryWriter.seekAbs ⟨S4, S4.length⟩ S4.length =
      ⟨S4, S4.length⟩ := BinaryWriter.seekAbs_in _ _ _ le_rfl
  rw [hsk1] at h
  rw [BinaryWriter.write_append_end _ _ _ rfl] at h
  set S5 := S4 ++ sacW.stream with hS5
  rw [BinaryWriter.align_end _ _ _ rfl] at h
  set P2 := alignUp S5.length 16 - S5.length with hP2
  set S6 := S5 ++ List.replicate P2 0 with hS6
  try simp only [] at h
  have hsk2 : BinaryWriter.seekAbs ⟨S6, S6.length⟩ S6.length =
      ⟨S6, S6.length⟩ := BinaryWriter.seekAbs_in _ _ _ le_rfl
  rw [hsk2] at h
  rw [BinaryWriter.write_append_end _ _ _ rfl] at h
  set S7 := S6 ++ kcW.stream with hS7
  try simp only [] at h
  obtain ⟨wP, hwP, h⟩ := exBind h
  obtain ⟨eP, -⟩ := BinaryWriter.writeU32_ok hwP
  subst eP
  try simp only [] at h
  have hsk3 : BinaryWriter.seekAbs ⟨S7, S7.length⟩ 516 = ⟨S7, 516⟩ :=
    BinaryWriter.seekAbs_in _ _ _ (by
      rw [hS7, hS6, hS5, hS4, hS3, hS2, hS1]
      simp only [List.length_append, List.length_replicate, leBytes_length,
        List.length_cons, List.length_nil]
      omega)
  rw [hsk3] at h
  obtain ⟨A1, hA1⟩ : ∃ x : List ℕ, x = List.replicate 0x100 0 ++
      List.replicate 0x100 0 ++ [65, 67, 73, 68] := ⟨_, rfl⟩
  obtain ⟨C1, hC1⟩ : ∃ x : List ℕ, x = List.replicate 4 0 ++ leBytes 4 FL ++
      leBytes 8 idMin.toNat ++ leBytes 8 idMax.toNat ++ List.replicate 32 0 ++
      [1] ++ [0] ++ [0] ++ [0] ++ leBytes 8 perms.toNat ++ leBytes 8 0 ++
      leBytes 8 0 ++ leBytes 8 0 ++ leBytes 8 0 ++ List.replicate P1 0 ++
      sacW.stream ++ List.replicate P2 0 ++ kcW.stream := ⟨_, rfl⟩
  have hre : S7 = A1 ++ (List.replicate 4 0 ++ C1) := by
    rw [hS7, hS6, hS5, hS4, hS3, hS2, hS1, hC1, ← hA1]
    simp only [List.append_assoc]
  have hAlen : A1.length = 516 := by
    rw [hA1]
    simp only [List.length_append, List.length_replicate, List.length_cons,
      List.length_nil]
    try omega
  have hpatch : ∀ v : Nat, BinaryWriter.write ⟨S7, 516⟩ (leBytes 4 v) =
      ⟨A1 ++ (leBytes 4 v ++ C1), 520⟩ := by
    intro v
    rw [hre, BinaryWriter.write_patch A1 (List.replicate 4 0) C1
      (leBytes 4 v) 516 hAlen (by simp [leBytes_length])]
    exact BinaryWriter.eq_of _ _ rfl (by simp [leBytes_length])
  rw [hpatch (S7.length - 256)] at h
  set S8 := A1 ++ (leBytes 4 (S7.length - 256) ++ C1) with hS8
  try simp only [] at h
  have hsk4 : BinaryWriter.seekAbs ⟨S8, 520⟩ 544 = ⟨S8, 544⟩ :=
    BinaryWriter.seekAbs_in _ _ _ (by
      rw [hS8, hA1, hC1]
      simp only [List.length_append, List.length_replicate, leBytes_length,
        List.length_cons, List.length_nil]
      omega)
  rw [hsk4] at h
  obtain ⟨wQ, hwQ, h⟩ := exBind h
  obtain ⟨eQ, -⟩ := BinaryWriter.writeU32_ok hwQ
  subst eQ
  try simp only [] at h
  obtain ⟨wR, hwR, h⟩ := exBind h
  obtain ⟨eR, -⟩ := BinaryWriter.writeU32_ok hwR
  subst eR
  try simp only [] at h
  obtain ⟨wS, hwS, h⟩ := exBind h
  obtain ⟨eS, -⟩ := BinaryWriter.writeU32_ok hwS
  subst eS
  try simp only [] at h
  obtain ⟨wT, hwT, h⟩ := exBind h
  obtain ⟨eT, -⟩ := BinaryWriter.writeU32_ok hwT
  subst eT
  try simp only [] at h
  obtain ⟨wU, hwU, h⟩ := exBind h
  obtain ⟨eU, -⟩ := BinaryWriter.writeU32_ok hwU
  subst eU
  try simp only [] at h
  obtain ⟨wV, hwV, h⟩ := exBind h
  obtain ⟨eV, -⟩ := BinaryWriter.writeU32_ok hwV
  subst eV
  try simp only [] at h
  rw [BinaryWriter.write_write, BinaryWriter.write_write,
    BinaryWriter.write_write, BinaryWriter.write_write,
    BinaryWriter.write_write] at h
  set G := leBytes 4 S2.length ++ (leBytes 4 (S3.length - S2.length) ++
    (leBytes 4 S4.length ++ (leBytes 4 sacW.stream.length ++
    (leBytes 4 S6.length ++ leBytes 4 kcW.stream.length)))) with hG
  obtain ⟨A2, hA2⟩ : ∃ x : List ℕ, x = A1 ++ leBytes 4 (S7.length - 256) ++
    List.replicate 4 0 ++ leBytes 4 FL ++ leBytes 8 idMin.toNat ++
    leBytes 8 idMax.toNat := ⟨_, rfl⟩
  obtain ⟨C2, hC2⟩ : ∃ x : List ℕ, x = List.replicate 8 0 ++ [1] ++ [0] ++
    [0] ++ [0] ++ leBytes 8 perms.toNat ++ leBytes 8 0 ++ leBytes 8 0 ++
    leBytes 8 0 ++ leBytes 8 0 ++ List.replicate P1 0 ++ sacW.stream ++
    List.replicate P2 0 ++ kcW.stream := ⟨_, rfl⟩
  have hrep32 : List.replicate 32 (0:ℕ) =
      List.replicate 24 0 ++ List.replicate 8 0 := by decide
  have hre2 : S8 = A2 ++ (List.replicate 24 0 ++ C2) := by
    rw [hS8, hC1, hA2, hC2, hrep32]
    simp only [List.append_assoc]
  have hpatch2 : BinaryWriter.write ⟨S8, 544⟩ G = ⟨A2 ++ (G ++ C2), 568⟩ := by
    rw [hre2, BinaryWriter.write_patch A2 (List.replicate 24 0) C2 G _
      (by rw [hA2]
          simp only [List.length_append, leBytes_length,
            List.length_replicate]
          omega)
      (by rw [hG]; simp [leBytes_length])]
    exact BinaryWriter.eq_of _ _ rfl (by rw [hG]; simp [leBytes_length])
  rw [hpatch2] at h
  injection h with h
  subst h
  refine ⟨isRetail, unq, pool, idMin, idMax, fkvs, perms, hret, hfs,
    hperms, ?_⟩
  simp only []
  rw [← hFL]
  clear_value FL S1 S2 S3 P1 S4 S5 P2 S6 S7 S8 G
  have hL1 : S1.length = 0x210 := by
    rw [hS1]
    simp only [List.length_append, List.length_replicate, leBytes_length,
      List.length_cons, List.length_nil]
    try omega
  have hL2 : S2.length = 0x240 := by
    rw [hS2]
    simp only [List.length_append, leBytes_length, List.length_replicate]
    omega
  have hL3 : S3.length = 0x26c := by
    rw [hS3]
    simp only [List.length_append, leBytes_length, List.length_replicate,
      List.length_cons, List.length_nil]
    omega
  have hP1v : P1 = 4 := by
    rw [hP1, hL3]
    decide
  have hL4 : S4.length = 0x270 := by
    rw [hS4]
    simp only [List.length_append, List.length_replicate]
    omega
  have hL5 : S5.length = 0x270 + sacW.stream.length := by
    rw [hS5]
    simp only [List.length_append]
    omega
  have hP2v : P2 = alignUp (0x270 + sacW.stream.length) 16 -
      (0x270 + sacW.stream.length) := by
    rw [hP2, hL5]
  have hle5 := le_alignUp (0x270 + sacW.stream.length) 16
  have hL6 : S6.length = alignUp (0x270 + sacW.stream.length) 16 := by
    rw [hS6]
    simp only [List.length_append, List.length_replicate]
    omega
  have hL7 : S7.length = alignUp (0x270 + sacW.stream.length) 16 +
      kcW.stream.length := by
    rw [hS7]
    simp only [List.length_append]
    omega
  have hq1 : S3.length - S2.length = 0x2c := by omega
  rw [hA2, hA1, hC2, hG, hL7, hq1, hL2, hL4, hL6, hP1v, hP2v]
  simp only [acidStream]
  simp only [List.append_assoc]

/-- Looking up the replaced key finds the new value. -/
theorem jsonLookup_objSetVal_eq (kvs : List (String × Json)) (key : String)
    (v : Json) :
    jsonLookup (objSetVal kvs key v) key = some v := by
  induction kvs with
  | nil => simp [objSetVal, jsonLookup]
  | cons p rest ih =>
    obtain ⟨k, old⟩ := p
    unfold objSetVal
    split
    · rename_i hk
      unfold jsonLookup
      rw [if_pos hk]
    · rename_i hk
      unfold jsonLookup
      rw [if_neg hk]
      exact ih

/-- Looking up any other key is unaffected by the replacement. -/
theorem jsonLookup_objSetVal_ne (kvs : List (String × Json)) (key k0 : String)
    (v : Json) (hne : k0 ≠ key) :
    jsonLookup (objSetVal kvs key v) k0 = jsonLookup kvs k0 := by
  induction kvs with
  | nil =>
    unfold objSetVal jsonLookup
    rw [if_neg (fun hh => hne hh.symm)]
    rfl
  | cons p rest ih =>
    obtain ⟨k, old⟩ := p
    unfold objSetVal
    split
    · rename_i hk
      unfold jsonLookup
      rw [if_neg (fun hh => hne (hh.symm.trans hk)),
        if_neg (fun hh => hne (hh.symm.trans hk))]
    · rename_i hk
      unfold jsonLookup
      by_cases hkk : k = k0
      · rw [if_pos hkk, if_pos hkk]
      · rw [if_neg hkk, if_neg hkk]
        exact ih

/-- The key-tuple scan is unaffected by replacing an unrelated key. -/
theorem jsonFindKeys_objSetVal_ne (kvs : List (String × Json)) (key : String)
    (v : Json) (keys : List String) (hk : ∀ k0 ∈ keys, k0 ≠ key) :
    jsonFindKeys (objSetVal kvs key v) keys = jsonFindKeys kvs keys := by
  induction keys with
  | nil => rfl
  | cons k0 rest ih =>
    unfold jsonFindKeys
    rw [jsonLookup_objSetVal_ne kvs key k0 v (hk k0 (List.Mem.head _))]
    cases jsonLookup kvs k0 with
    | some x => rfl
    | none => exact ih (fun k1 h1 => hk k1 (List.Mem.tail _ h1))

/-- `json_read_value` on keys other than `filesystem_access` does not see
the owner-list replacement. -/
theorem jsonReadValue_setOwnerLists (kvs fkvs : List (String × Json))
    (v1 v2 : Json) (keys : List String) (d : Option Json)
    (hk : ∀ k0 ∈ keys, k0 ≠ "filesystem_access") :
    jsonReadValue (setOwnerLists kvs fkvs v1 v2) keys d =
      jsonReadValue (.obj kvs) keys d := by
  unfold setOwnerLists
  simp only [jsonReadValue]
  rw [jsonFindKeys_objSetVal_ne _ _ _ _ hk]

/-- `write_acid` reads none of the owner-id lists: replacing them in the
configuration leaves its output unchanged. -/
theorem writeAcid_owner_invariance (kvs fkvs : List (String × Json))
    (v1 v2 : Json) (sacW kcW : BinaryWriter)
    (hfs : jsonLookup kvs "filesystem_access" = some (.obj fkvs)) :
    writeAcid (setOwnerLists kvs fkvs v1 v2) sacW kcW =
      writeAcid (.obj kvs) sacW kcW := by
  have e1 : jsonReadBool (setOwnerLists kvs fkvs v1 v2) ["is_retail"] none =
      jsonReadBool (.obj kvs) ["is_retail"] none := by
    unfold jsonReadBool
    rw [jsonReadValue_setOwnerLists _ _ _ _ _ _ (by decide)]
  have e2 : jsonReadBool (setOwnerLists kvs fkvs v1 v2)
      ["unqualified_approval"] (some (.bool false)) =
      jsonReadBool (.obj kvs) ["unqualified_approval"] (some (.bool false)) := by
    unfold jsonReadBool
    rw [jsonReadValue_setOwnerLists _ _ _ _ _ _ (by decide)]
  have e3 : jsonReadInt (setOwnerLists kvs fkvs v1 v2) ["pool_partition"]
      0 3 none = jsonReadInt (.obj kvs) ["pool_partition"] 0 3 none := by
    unfold jsonReadInt
    rw [jsonReadValue_setOwnerLists _ _ _ _ _ _ (by decide)]
  have e4 : jsonReadU64 (setOwnerLists kvs fkvs v1 v2)
      ["program_id_range_min", "title_id_range_min"] none =
      jsonReadU64 (.obj kvs)
        ["program_id_range_min", "title_id_range_min"] none := by
    unfold jsonReadU64 jsonReadInt
    rw [jsonReadValue_setOwnerLists _ _ _ _ _ _ (by decide)]
  have e5 : jsonReadU64 (setOwnerLists kvs fkvs v1 v2)
      ["program_id_range_max", "title_id_range_max"] none =
      jsonReadU64 (.obj kvs)
        ["program_id_range_max", "title_id_range_max"] none := by
    unfold jsonReadU64 jsonReadInt
    rw [jsonReadValue_setOwnerLists _ _ _ _ _ _ (by decide)]
  have e6 : jsonReadDict (setOwnerLists kvs fkvs v1 v2)
      ["filesystem_access"] none =
      .ok (objSetVal (objSetVal fkvs "content_owner_ids" v1)
        "save_data_owner_ids" v2) := by
    unfold setOwnerLists
    simp [jsonReadDict, jsonReadValue, jsonFindKeys, jsonLookup_objSetVal_eq]
    rfl
  have e7 : jsonReadDict (Json.obj kvs) ["filesystem_access"] none =
      .ok fkvs := by
    simp [jsonReadDict, jsonReadValue, jsonFindKeys, hfs]
    rfl
  have e8 : jsonReadU64 (.obj (objSetVal (objSetVal fkvs "content_owner_ids" v1)
      "save_data_owner_ids" v2)) ["permissions"] none =
      jsonReadU64 (.obj fkvs) ["permissions"] none := by
    simp only [jsonReadU64, jsonReadInt, jsonReadValue]
    rw [jsonFindKeys_objSetVal_ne _ _ _ _ (by decide),
      jsonFindKeys_objSetVal_ne _ _ _ _ (by decide)]
  unfold writeAcid
  rw [e1, e2, e3, e4, e5, e6, e7]
  simp only [bind_ok_def]
  rw [e8]

/-- Decomposition of `acidStream` around the filesystem-access-control
block: the two owner-id counts and the reserved byte at 0x241, and the
four zero min/max id fields at 0x24c. -/
theorem acidStream_fac_view (acidFlags : Nat) (idMin idMax perms : Int)
    (sac kc : List Nat) :
    ∃ X R : List Nat, X.length = 0x241 ∧
      acidStream acidFlags idMin idMax perms sac kc =
        X ++ (0 :: 0 :: 0 :: (leBytes 8 perms.toNat ++
          (List.replicate 0x20 0 ++ R))) := by
  simp only [acidStream]
  refine ⟨List.replicate 0x100 0 ++ List.replicate 0x100 0 ++
      [65, 67, 73, 68] ++
      leBytes 4 (alignUp (0x270 + sac.length) 16 + kc.length - 0x100) ++
      List.replicate 4 0 ++ leBytes 4 acidFlags ++ leBytes 8 idMin.toNat ++
      leBytes 8 idMax.toNat ++ leBytes 4 0x240 ++ leBytes 4 0x2c ++
      leBytes 4 0x270 ++ leBytes 4 sac.length ++
      leBytes 4 (alignUp (0x270 + sac.length) 16) ++ leBytes 4 kc.length ++
      List.replicate 8 0 ++ [1],
    List.replicate 4 0 ++ (sac ++
      (List.replicate (alignUp (0x270 + sac.length) 16 -
        (0x270 + sac.length)) 0 ++ kc)), ?_, ?_⟩
  · simp only [List.length_append, List.length_replicate, leBytes_length,
      List.length_cons, List.length_nil]
    try omega
  · rw [leBytes_zero]
    rw [show List.replicate 0x20 (0:ℕ) = List.replicate 8 0 ++
      (List.replicate 8 0 ++ (List.replicate 8 0 ++ List.replicate 8 0))
      from by decide]
    simp only [List.append_assoc, List.cons_append, List.nil_append,
      List.singleton_append]

/-- C10: the Acid filesystem-access-control block always records a
content-owner-id count of 0, a save-data-owner-id count of 0 (bytes
0x241-0x243) and zero-valued min/max id fields (the 32 bytes at 0x24c),
whatever the configured owner lists are: replacing both owner-id lists in
the configuration leaves the Acid bytes unchanged, so the lists are
embedded only in the Aci region. -/
theorem acid_fac_fixed {c : Json} {sacW kcW w : BinaryWriter}
    (h : writeAcid c sacW kcW = .ok w) :
    ((w.stream.drop 0x241).take 3 = [0, 0, 0] ∧
     (w.stream.drop 0x24c).take 0x20 = List.replicate 0x20 0) ∧
    ∀ (kvs fkvs : List (String × Json)) (v1 v2 : Json),
      c = .obj kvs →
      jsonLookup kvs "filesystem_access" = some (.obj fkvs) →
      writeAcid (setOwnerLists kvs fkvs v1 v2) sacW kcW = .ok w := by
  constructor
  · obtain ⟨isRetail, unq, pool, idMin, idMax, fkvs, perms, -, -, -,
      hstream⟩ := writeAcid_ok_shape h
    obtain ⟨X, R, hX, hsplit⟩ := acidStream_fac_view
      (((if isRetail then 1 else 0) ||| (if unq then 2 else 0)) |||
        (pool.toNat <<< 2)) idMin idMax perms sacW.stream kcW.stream
    constructor
    · rw [hstream, hsplit, ← hX, List.drop_left]
      rfl
    · rw [hstream]
      have hre : acidStream
          (((if isRetail then 1 else 0) ||| (if unq then 2 else 0)) |||
            (pool.toNat <<< 2)) idMin idMax perms sacW.stream kcW.stream =
          (X ++ (0 :: 0 :: 0 :: leBytes 8 perms.toNat)) ++
            (List.replicate 0x20 0 ++ R) := by
        rw [hsplit]
        simp [List.append_assoc]
      have hlen : (X ++ (0 :: 0 :: 0 :: leBytes 8 perms.toNat)).length =
          0x24c := by
        simp only [List.length_append, List.length_cons, leBytes_length, hX]
      rw [hre, ← hlen, List.drop_left]
      have ht := List.take_left (List.replicate 0x20 (0:ℕ)) R
      rw [List.length_replicate] at ht
      exact ht
  · intro kvs fkvs v1 v2 hc hfs
    subst hc
    rw [writeAcid_owner_invariance kvs fkvs v1 v2 sacW kcW hfs]
    exact h

/-- A minimal configuration for `write_acid` carrying a non-empty
content-owner-id list. -/
def acidCfg : Json := .obj [
  ("is_retail", .bool false),
  ("pool_partition", .int 0),
  ("program_id_range_min", .int 0),
  ("program_id_range_max", .int 0),
  ("filesystem_access", .obj [
    ("permissions", .int 1),
    ("content_owner_ids", .arr [.int 1]),
    ("save_data_owner_ids", .arr [])])]

/-- The writer `write_acid` produces for `acidCfg` with empty service and
capability tables. -/
def acidOut : BinaryWriter :=
  ((writeAcid acidCfg ⟨[], 0⟩ ⟨[], 0⟩).toOption).getD ⟨[], 0⟩

set_option maxRecDepth 10000 in
/-- C10 witness: the fixed filesystem-access-control block and the
owner-list invariance at a concrete configuration. -/
theorem acid_fac_fixed_witness :
    writeAcid acidCfg ⟨[], 0⟩ ⟨[], 0⟩ = .ok acidOut ∧
    (((acidOut.stream.drop 0x241).take 3 = [0, 0, 0] ∧
      (acidOut.stream.drop 0x24c).take 0x20 = List.replicate 0x20 0) ∧
     ∀ (kvs fkvs : List (String × Json)) (v1 v2 : Json),
       acidCfg = .obj kvs →
       jsonLookup kvs "filesystem_access" = some (.obj fkvs) →
       writeAcid (setOwnerLists kvs fkvs v1 v2) ⟨[], 0⟩ ⟨[], 0⟩ =
         .ok acidOut) :=
  ⟨rfl, @acid_fac_fixed acidCfg ⟨[], 0⟩ ⟨[], 0⟩ acidOut rfl⟩

/-- C8 witness: the three rejections at concrete configurations. -/
theorem build_rejections_witness :
    (∃ e, build cfg33Caps = .error e) ∧
    (∃ e, build cfgDebugBoth = .error e) ∧
    (∃ e, build cfgName9 = .error e) :=
  ⟨(build_rejections cfg33Caps).1 (List.replicate 33 htsCap) rfl (by simp),
   (build_rejections cfgDebugBoth).2.1 [debugBothCap] debugBothCap
     [("allow_debug", .bool true), ("force_debug", .bool true)]
     rfl (List.Mem.head _) rfl rfl rfl rfl,
   (build_rejections cfgName9).2.2 [.str "ninechars"] "ninechars"
     (Or.inl rfl) (List.Mem.head _) rfl⟩

end Npdm
